import Mathlib

/-!
A verification development for the `FlatbufferEditor` component of the
scene_lab repository (`src/flatbuffer_editor.cpp`,
`include/scene_lab/flatbuffer_editor.h`).

The C++ code is shallowly embedded: the schema-guided traversal
(`VisitFlatbufferTable` / `VisitField` and friends), the struct text codec
(`StructToString` / `ParseStringIntoStruct` / `ExtractInlineStructDef`), the
enum/bitflag resolver (`GetEnumTypeAndValue`), and the per-frame drivers
(`Update`, `Draw`, `CommitEditsToFlatbuffer`) become Lean functions over an
explicit editor state.  A Flatbuffer table instance is modelled as a tree of
fields (scalars carried as integers with explicit width/wrapping, strings,
in-place structs, nested tables, vectors); machine integer casts are modelled
with explicit `% 2^w` arithmetic.  GUI events (edit focus, button presses,
group clicks) are supplied by an oracle, since they are environmental input.
-/

set_option maxHeartbeats 1000000
set_option linter.unusedVariables false
set_option maxRecDepth 8000

namespace SceneLab

/-! ### Decimal text helpers

`numToString` mirrors `flatbuffers::NumToString` on integers (decimal,
leading minus for negatives), and `stringToInt` mirrors
`flatbuffers::StringToInt`, i.e. C `strtoll`: skip leading spaces, optional
sign, consume decimal digits, clamp to the int64 range on overflow, and
yield 0 when no digits are present. -/

def digitChar (d : Nat) : Char := Char.ofNat (48 + d)

def natToCharsAux : Nat → Nat → List Char
  | 0, _ => []
  | fuel + 1, n => if n = 0 then [] else natToCharsAux fuel (n / 10) ++ [digitChar (n % 10)]

def natToChars (n : Nat) : List Char := if n = 0 then ['0'] else natToCharsAux (n + 1) n

def numToChars (v : Int) : List Char :=
  if v < 0 then '-' :: natToChars v.natAbs else natToChars v.toNat

def numToString (v : Int) : String := String.mk (numToChars v)

def parseDigitsNat : List Char → Nat → Nat
  | [], acc => acc
  | c :: cs, acc => if c.isDigit then parseDigitsNat cs (acc * 10 + (c.toNat - 48)) else acc

def stringToIntGo : List Char → Int
  | [] => 0
  | c :: rest =>
    if c = '-' then -(parseDigitsNat rest 0 : Int)
    else if c = '+' then (parseDigitsNat rest 0 : Int)
    else (parseDigitsNat (c :: rest) 0 : Int)

def stringToIntAux (cs : List Char) : Int :=
  stringToIntGo (cs.dropWhile (fun c => c = ' '))

def clampI64 (v : Int) : Int := max (-(2 ^ 63)) (min (2 ^ 63 - 1) v)

def stringToInt (cs : List Char) : Int := clampI64 (stringToIntAux cs)

/-! ### Scalar field types

A scalar Flatbuffer field has a signedness and a bit width; writing through
`SetAnyFieldI` truncates the parsed int64 to the field width (C integral
conversion), modelled by `ScalarTy.wrap`. -/

structure ScalarTy where
  signed : Bool
  width : Nat
  deriving DecidableEq

def ScalarTy.wrap (ty : ScalarTy) (v : Int) : Int :=
  if ty.signed = true ∧ 2 ^ (ty.width - 1) ≤ v % (2 ^ ty.width : Int)
  then v % (2 ^ ty.width : Int) - 2 ^ ty.width
  else v % (2 ^ ty.width : Int)

def ScalarTy.minV (ty : ScalarTy) : Int :=
  if ty.signed then -(2 ^ (ty.width - 1)) else 0

def ScalarTy.maxV (ty : ScalarTy) : Int :=
  if ty.signed then 2 ^ (ty.width - 1) - 1 else 2 ^ ty.width - 1

/-- `SetAnyFieldS` on an integer-typed field: parse the draft with
`StringToInt` and truncate to the field's width. -/
def setScalarFromChars (ty : ScalarTy) (cs : List Char) : Int := ty.wrap (stringToInt cs)

/-! ### The struct text codec

`StructToString` renders a fixed-size struct as `< v1, v2, < v3a, v3b >, v4 >`
in schema field order, and `ParseStringIntoStruct` is its strict
recursive-descent inverse.  A struct's field layout is modelled by `STy` /
`STyList` (scalars carry their width; sub-structs their own field list) and a
struct instance by `SVal` / `SValList`.  Scalars inside structs are modelled
as integers; floating-point struct members are outside the model.  In the
source an `Obj` field whose object is not a struct is skipped entirely by the
codec; such fields cannot occur inside structs, so the model gives every
`objS` field struct semantics. -/

mutual
inductive STy where
  | scalarS (ty : ScalarTy)
  | objS (fields : STyList)
  deriving DecidableEq
inductive STyList where
  | nil
  | cons (t : STy) (rest : STyList)
  deriving DecidableEq
end

mutual
inductive SVal where
  | scalarV (v : Int)
  | objV (fields : SValList)
  deriving DecidableEq
inductive SValList where
  | nil
  | cons (v : SVal) (rest : SValList)
  deriving DecidableEq
end

mutual
/-- `GetAnyFieldS` / `StructToString` rendering of one struct member
(`field_names_only = false`): a scalar prints as its decimal value, a
sub-struct recursively as `< ... >`. -/
def svalToChars : SVal → List Char
  | .scalarV v => numToChars v
  | .objV fields => '<' :: ' ' :: (structFieldsToChars fields ++ [' ', '>'])
def structFieldsToChars : SValList → List Char
  | .nil => []
  | .cons v .nil => svalToChars v
  | .cons v rest => svalToChars v ++ ',' :: ' ' :: structFieldsToChars rest
end

/-- `FlatbufferEditor::StructToString` on a whole struct: `kStructBegin`,
the comma-separated fields, `kStructEnd`. -/
def structToString (fields : SValList) : List Char :=
  '<' :: ' ' :: (structFieldsToChars fields ++ [' ', '>'])

/-- `ConsumeWhitespace`: strip leading spaces. -/
def consumeWhitespace (cs : List Char) : List Char := cs.dropWhile (fun c => c = ' ')

/-- `ConsumeCommasAndWhitespace`: strip leading commas and spaces. -/
def consumeCommasAndWhitespace (cs : List Char) : List Char :=
  cs.dropWhile (fun c => c = ',' ∨ c = ' ')

/-- `ConsumeNumber`: strip an optional leading hyphen (only at position 0),
digits, and at most one decimal point from the start of the string; stops at
the first other character. -/
def consumeNumberGo : List Char → Nat → Bool → List Char
  | [], _, _ => []
  | c :: rest, i, gotDecimal =>
    if c.isDigit then consumeNumberGo rest (i + 1) gotDecimal
    else if c = '.' ∧ gotDecimal = false then consumeNumberGo rest (i + 1) true
    else if i = 0 ∧ c = '-' then consumeNumberGo rest (i + 1) gotDecimal
    else c :: rest

def consumeNumber (cs : List Char) : List Char := consumeNumberGo cs 0 false

/-- `ExtractInlineStructDef`'s scan: track angle-bracket nesting depth and
return the index of the `>` matching the opening bracket; `none` when the
nesting goes negative or the string runs out. -/
def extractMatchGo : List Char → Nat → Int → Option Nat
  | [], _, _ => none
  | c :: rest, i, nest =>
    let nest1 := if c = '<' then nest + 1 else if c = '>' then nest - 1 else nest
    if c = '>' ∧ nest1 = 0 then some i
    else if nest1 < 0 then none
    else extractMatchGo rest (i + 1) nest1

/-- `FlatbufferEditor::ExtractInlineStructDef`: the text between the first
`<` and its matching `>` (exclusive); a single space when that text is
empty, and the empty string on mismatch. -/
def extractInlineStructDef (cs : List Char) : List Char :=
  match extractMatchGo cs 0 0 with
  | none => []
  | some i =>
    let ret := (cs.drop 1).take (i - 1)
    if ret = [] then [' '] else ret

def headSVal : SValList → SVal
  | .nil => SVal.scalarV 0
  | .cons v _ => v

def tailSVals : SValList → SValList
  | .nil => .nil
  | .cons _ r => r

def objSubfields : SVal → SValList
  | .scalarV _ => .nil
  | .objV fs => fs

/-- The field loop of `FlatbufferEditor::ParseStringIntoStruct`, walking the
schema fields in order.  `parseStructField` handles one field at the point
where leading whitespace has been consumed and returns (ok, written value,
remaining string); `parseStructFieldList` threads the string through the
loop, consuming commas/whitespace between fields and stopping early (with
success, remaining fields untouched) when the string runs out.  Running the
same control flow with and without a destination struct is identical in the
source (the null `struct_ptr` just suppresses the writes), so the model
computes both the validation verdict and the written values in one pass.
For a sub-struct the source extracts `substr = ExtractInlineStructDef(str)`
(the text between the brackets, exclusive) and recursively calls
`ParseStringIntoStruct(substr, ...)`, whose own first step re-extracts an
inline struct def from that bracket-less text; the model inlines that callee
(its extraction followed by its field loop) at the call site.  Note the
source then advances past the sub-struct by `substr.length` characters,
which does not account for the two bracket characters themselves. -/
def parseStructFieldDoc : Unit := ()
mutual
def parseStructField : STy → SVal → List Char → Bool × SVal × List Char
  | .scalarS sty, v, str =>
    let newStr := consumeNumber str
    if newStr = str then (false, v, str)
    else (true, SVal.scalarV (setScalarFromChars sty str), newStr)
  | .objS subtys, v, str =>
    let substr := extractInlineStructDef str
    if substr = [] then (false, v, str)
    else
      let inner := extractInlineStructDef substr
      if inner = [] then (false, v, str)
      else
        let r := parseStructFieldList subtys (objSubfields v) inner
        if r.1 then (true, SVal.objV r.2, str.drop substr.length)
        else (false, SVal.objV r.2, str)
def parseStructFieldList : STyList → SValList → List Char → Bool × SValList
  | .nil, vals, _ => (true, vals)
  | .cons ty tys, vals, str =>
    let str1 := consumeWhitespace str
    let r := parseStructField ty (headSVal vals) str1
    if r.1 then
      let str2 := consumeCommasAndWhitespace r.2.2
      if str2 = [] then (true, SValList.cons r.2.1 (tailSVals vals))
      else
        let rr := parseStructFieldList tys (tailSVals vals) str2
        (rr.1, SValList.cons r.2.1 rr.2)
    else (false, SValList.cons r.2.1 (tailSVals vals))
end

/-- `FlatbufferEditor::ParseStringIntoStruct`: extract the outer `< ... >`
span, fail if it is absent, then run the field loop.  Returns the validation
verdict together with the field values that would be written. -/
def parseStringIntoStruct (str : List Char) (tys : STyList) (vals : SValList) :
    Bool × SValList :=
  let s := extractInlineStructDef str
  if s = [] then (false, vals) else parseStructFieldList tys vals s

/-! ### The enum / bitflag resolver (`GetEnumTypeAndValue`, `NumBitsSet`) -/

structure EnumValDef where
  name : String
  value : Int
  deriving DecidableEq

structure EnumDef where
  ename : String
  values : List EnumValDef
  deriving DecidableEq

/-- The C conversion of an `int64_t` enum value to `uint64_t`. -/
def toU64 (v : Int) : Nat := (v % (2 ^ 64 : Int)).toNat

/-- `NumBitsSet`: population count over the 64 bits of a `uint64_t`. -/
def numBitsSet (n : Nat) : Nat := ((List.range 64).filter (fun i => n.testBit i)).length

/-- The first loop of `GetEnumTypeAndValue`: scan the declared enum values in
order, downgrading `is_bit_flags` whenever a declared value has more than one
bit set, and stopping (with the name) at the first exact match. -/
def findEnumValue : List EnumValDef → Int → Bool → Option String × Bool
  | [], _, isBitFlags => (none, isBitFlags)
  | ev :: rest, num, isBitFlags =>
    let ibf1 := if isBitFlags = true ∧ 1 < numBitsSet (toU64 ev.value) then false
                else isBitFlags
    if ev.value = num then (some ev.name, ibf1)
    else findEnumValue rest num ibf1

/-- The bitflag decomposition loop of `GetEnumTypeAndValue`: test each
declared value against the remaining bits, joining matched names with
`" | "` and clearing the matched bits.  Returns the residual bits and the
accumulated name. -/
def buildBitflagName : List EnumValDef → Nat → String → Nat × String
  | [], bitNum, acc => (bitNum, acc)
  | ev :: rest, bitNum, acc =>
    let bit := toU64 ev.value
    if bit.land bitNum ≠ 0 then
      let acc1 := (if 0 < acc.length then acc ++ " | " else acc) ++ ev.name
      buildBitflagName rest (bitNum.land (2 ^ 64 - 1 - bit)) acc1
    else buildBitflagName rest bitNum acc

/-- `FlatbufferEditor::GetEnumTypeAndValue`.  A scalar field references an
enum iff its type index is non-negative; the model passes that enum (or
`none`) directly.  Returns `(scalar_value, type, value_name)`: the re-printed
integer, the enum's name, and the parenthesised symbolic annotation
(`(-blank-)` for zero with no matching flags, a `" | "`-joined flag list, a
trailing `" | ???"` when named flags leave residual bits, and `"???"` for a
non-matching value of a non-bitflag enum). -/
def getEnumTypeAndValue (enumDef : Option EnumDef) (value : String) :
    String × String × String :=
  match enumDef with
  | none => (value, "", "")
  | some e =>
    let num := stringToInt value.data
    let fr := findEnumValue e.values num true
    let valueName :=
      match fr.1 with
      | some n => n
      | none =>
        if fr.2 then
          if toU64 num = 0 then "-blank-"
          else
            let br := buildBitflagName e.values (toU64 num) ""
            if br.1 ≠ 0 ∧ 0 < br.2.length then br.2 ++ " | ???" else br.2
        else "???"
    let valueName1 := if 0 < valueName.length then "(" ++ valueName ++ ")" else valueName
    (numToString num, e.ename, valueName1)

/-! ### The editor state and the visit modes

`EdState` collects the mutable members of `FlatbufferEditor` that the
traversal touches.  `edit_fields_` (an `unordered_map<string,string>`) is an
association list with first-match lookup; `committed_fields_`,
`error_fields_` and `expanded_subtables_` (`std::set<string>`) are lists with
insert-if-absent.  GUI events are an oracle `Gui`: `editing id` is whether
`gui::Edit` on control `id` reports an edit in progress, `pressed id` whether
`TextButton id` fired `kEventWentUp`, `clicked id` whether the group's
`CheckEvent` saw `kEventWentDown`; the draft text typed by the user is taken
to be already present in `edit_fields_`. -/

inductive VisitMode where
  | kCheckEdits
  | kDrawEditAuto
  | kDrawEditManual
  | kDrawReadOnly
  | kCommitEdits
  deriving DecidableEq

inductive Button where
  | kNone
  | kCommit
  | kRevert
  deriving DecidableEq

def IsDraw (mode : VisitMode) : Bool :=
  mode = .kDrawEditAuto ∨ mode = .kDrawEditManual ∨ mode = .kDrawReadOnly

def IsDrawEdit (mode : VisitMode) : Bool :=
  mode = .kDrawEditAuto ∨ mode = .kDrawEditManual

structure Gui where
  editing : String → Bool
  pressed : String → Bool
  clicked : String → Bool

def efLookup : List (String × String) → String → Option String
  | [], _ => none
  | (k, v) :: rest, key => if k = key then some v else efLookup rest key

def efSet : List (String × String) → String → String → List (String × String)
  | [], key, v => [(key, v)]
  | (k, v0) :: rest, key, v =>
    if k = key then (k, v) :: rest else (k, v0) :: efSet rest key v

def efGet (m : List (String × String)) (key : String) : String := (efLookup m key).getD ""

def setInsert (l : List String) (x : String) : List String :=
  if x ∈ l then l else l ++ [x]

structure EdState where
  editFields : List (String × String)
  expandedSubtables : List String
  committedFields : List String
  errorFields : List String
  rootId : String
  currentlyEditingField : String
  forceCommitField : String
  buttonPressed : Button
  keyboardInUse : Bool
  showTypes : Bool
  expandAll : Bool
  configReadOnly : Bool
  configAutoCommit : Bool
  editFieldsModified : Bool
  flatbufferModified : Bool
  deriving DecidableEq

/-! ### The buffer model

A table instance is a list of fields in schema order.  A field is either
present or absent (`CheckField`); scalars store an `Int` with an explicit
width, strings their text, structs their `SValList`, tables a nested `Table`,
vectors their elements.  Unions are omitted: `VisitFlatbufferUnion` treats
the active payload exactly as a nested table field.  `VisitSubtable` is
inlined at its two call sites (table fields and vector-of-table elements). -/

mutual
inductive Entry where
  | scalarE (name : String) (ty : ScalarTy) (enumDef : Option EnumDef) (stored : Option Int)
  | stringE (name : String) (stored : Option String)
  | structE (name : String) (tyname : String) (ftys : STyList) (stored : Option SValList)
  | tableAbsent (name : String)
  | tableE (name : String) (tyname : String) (sub : Table)
  | vectorAbsent (name : String)
  | vectorScalars (name : String) (ty : ScalarTy) (enumDef : Option EnumDef) (vals : List Int)
  | vectorStrings (name : String) (vals : List String)
  | vectorStructs (name : String) (tyname : String) (ftys : STyList) (vals : List SValList)
  | vectorTables (name : String) (tyname : String) (subs : TableList)
  deriving DecidableEq
inductive Table where
  | nil
  | cons (e : Entry) (rest : Table)
  deriving DecidableEq
inductive TableList where
  | nil
  | cons (t : Table) (rest : TableList)
  deriving DecidableEq
end

def tlLength : TableList → Nat
  | .nil => 0
  | .cons _ r => tlLength r + 1

def tlTake : Nat → TableList → TableList
  | 0, _ => .nil
  | _, .nil => .nil
  | n + 1, .cons t r => .cons t (tlTake n r)

def tlAppend : TableList → TableList → TableList
  | .nil, r => r
  | .cons t rest, r => .cons t (tlAppend rest r)

def tlReplicate : Nat → TableList
  | 0 => .nil
  | n + 1 => .cons Table.nil (tlReplicate n)

/-- `flatbuffers::ResizeAnyVector`: truncate to the new size, or grow with
zero-initialised elements. -/
def resizeListD {α : Type} (vals : List α) (n : Nat) (dflt : α) : List α :=
  vals.take n ++ List.replicate (n - vals.length) dflt

def resizeTables (subs : TableList) (n : Nat) : TableList :=
  tlAppend (tlTake n subs) (tlReplicate (n - tlLength subs))

/-- The `uoffset_t` cast of the parsed new vector size. -/
def toU32 (v : Int) : Nat := ((v % (2 ^ 32 : Int)).toNat)

mutual
/-- All-zero-bytes struct value of a layout, for vector growth. -/
def zeroSVal : STy → SVal
  | .scalarS _ => .scalarV 0
  | .objS fs => .objV (zeroSVals fs)
def zeroSVals : STyList → SValList
  | .nil => .nil
  | .cons t r => .cons (zeroSVal t) (zeroSVals r)
end

/-! ### `VisitField` and the per-kind visit functions -/

/-- The seeding step of `VisitField`: on first visit (and not in read-only
mode) the draft is initialised from the authoritative value. -/
def visitFieldSeed (mode : VisitMode) (value id : String) (s : EdState) : EdState :=
  if mode ≠ .kDrawReadOnly ∧ (efLookup s.editFields id).isNone then
    {s with editFields := efSet s.editFields id value}
  else s

/-- The `gui::Edit` step of `VisitField`: while the user edits the control,
auto mode records the field as currently edited, and the keyboard flag is
set. -/
def visitFieldEditControl (g : Gui) (mode : VisitMode) (id : String) (s : EdState) :
    EdState :=
  if IsDrawEdit mode && g.editing (id ++ "-edit") then
    let sa := if mode = .kDrawEditAuto then {s with currentlyEditingField := id} else s
    {sa with keyboardInUse := true}
  else s

/-- The manual-mode apply/revert buttons of `VisitField`: shown only for a
differing draft; apply queues the field for force-commit, revert resets the
draft to the authoritative value. -/
def visitFieldManualButtons (g : Gui) (mode : VisitMode) (value id : String)
    (s : EdState) : EdState :=
  if mode = .kDrawEditManual ∧ efGet s.editFields id ≠ value then
    let sa := if g.pressed (id ++ "-apply") then {s with forceCommitField := id} else s
    if g.pressed (id ++ "-revert") then
      {sa with editFields := efSet sa.editFields id value}
    else sa
  else s

/-- `FlatbufferEditor::VisitField`.  Seeds the draft from the authoritative
value on first visit (except in read-only mode); in `kCommitEdits`, a draft
differing from the value is committed (returning `true`) when no force-commit
is pending or this field is the forced one; draw modes update the
currently-editing field, the keyboard flag, and handle the manual
apply/revert buttons.  `name`, `etype` and `comment` are only drawn. -/
def visitField (g : Gui) (mode : VisitMode) (name value etype comment id : String)
    (s : EdState) : Bool × EdState :=
  let s1 := visitFieldSeed mode value id s
  if mode = .kDrawReadOnly then (false, s1)
  else if efGet s1.editFields id ≠ value ∧ mode = .kCommitEdits
      ∧ (s1.forceCommitField = "" ∨ s1.forceCommitField = id) then
    (true, {s1 with editFieldsModified := true,
                    committedFields := setInsert s1.committedFields id})
  else
    let s2 := if efGet s1.editFields id ≠ value then {s1 with editFieldsModified := true}
      else s1
    let s3 := visitFieldEditControl g mode id s2
    (false, visitFieldManualButtons g mode value id s3)

/-- `FlatbufferEditor::AddFieldButton`: in `kCommitEdits` the absent field is
the one to add exactly when it is the forced field; in editable draw modes
the button press marks it for force-commit. -/
def addFieldButton (g : Gui) (mode : VisitMode) (name typestr id : String) (s : EdState) :
    Bool × EdState :=
  if mode = .kCommitEdits ∧ s.forceCommitField = id then (true, s)
  else
    let s1 := if IsDraw mode && IsDrawEdit mode && g.pressed (id ++ "-addField") then
        {s with forceCommitField := id, editFieldsModified := true}
      else s
    (false, s1)

/-- `FlatbufferEditor::VisitFlatbufferScalar`: read the value as text, show
the enum annotation (for the draft text when one exists), and on commit write
the parsed draft back (`SetAnyFieldS`) and set the modified flag.  Never
resizes. -/
def visitFlatbufferScalar (g : Gui) (mode : VisitMode) (name : String) (ty : ScalarTy)
    (enumDef : Option EnumDef) (stored : Int) (id : String) (s : EdState) :
    EdState × Int :=
  let value := numToString stored
  let enumValue := if mode ≠ .kDrawReadOnly ∧ (efLookup s.editFields id).isSome then
      efGet s.editFields id
    else value
  let er := getEnumTypeAndValue enumDef enumValue
  let r := visitField g mode name value er.2.1 er.2.2 id s
  if r.1 then
    ({r.2 with flatbufferModified := true},
     setScalarFromChars ty (efGet r.2.editFields id).data)
  else (r.2, stored)

/-- `FlatbufferEditor::VisitFlatbufferString` on a present field: on commit,
`SetString` replaces the text, the modified flag is set, and the visit
reports a resize. -/
def visitFlatbufferString (g : Gui) (mode : VisitMode) (name : String) (stored : String)
    (id : String) (s : EdState) : Bool × EdState × String :=
  let r := visitField g mode name stored "string" "" id s
  if r.1 then (true, {r.2 with flatbufferModified := true}, efGet r.2.editFields id)
  else (false, r.2, stored)

/-- `FlatbufferEditor::VisitFlatbufferStruct`: the draft is first validated
(`ParseStringIntoStruct` with a null destination); only a valid draft is
written and sets the modified flag.  An invalid draft is silently left
pending — in particular nothing is added to `error_fields_`.  The
names-only annotation shown under `show_types()` is display-only.  Never
resizes. -/
def visitFlatbufferStruct (g : Gui) (mode : VisitMode) (name tyname : String)
    (ftys : STyList) (vals : SValList) (id : String) (s : EdState) : EdState × SValList :=
  let value := String.mk (structToString vals)
  let r := visitField g mode name value tyname "" id s
  if r.1 then
    let draft := (efGet r.2.editFields id).data
    let pr := parseStringIntoStruct draft ftys vals
    if pr.1 then ({r.2 with flatbufferModified := true}, pr.2)
    else (r.2, vals)
  else (r.2, vals)

/-- The vector-size sub-field of `VisitFlatbufferVector`: the size is itself
visited as a field, but `kDrawEditAuto` is downgraded to `kDrawEditManual`
so a vector size is never eligible for the auto-commit-on-blur path. -/
def visitVectorSize (g : Gui) (mode : VisitMode) (name : String) (len : Nat)
    (id : String) (s : EdState) : Bool × EdState :=
  visitField g (if mode = .kDrawEditAuto then .kDrawEditManual else mode)
    (name ++ ".size") (numToString (len : Int)) "size_t" "" (id ++ ".size") s

/-- The scalar-element loop of `VisitFlatbufferVector`: the displayed value
is the draft when one exists, renormalised through the enum resolver; element
commits write in place (no resize), set the modified flag, and the loop
continues. -/
def visitVecScalars (g : Gui) (mode : VisitMode) (name : String) (ty : ScalarTy)
    (enumDef : Option EnumDef) :
    List Int → String → Nat → EdState → EdState × List Int
  | [], _, _, s => (s, [])
  | v :: rest, id, i, s =>
    let idx := "[" ++ numToString (i : Int) ++ "]"
    let value0 := numToString v
    let value1 := if (efLookup s.editFields (id ++ idx)).isSome then
        efGet s.editFields (id ++ idx)
      else value0
    let er := getEnumTypeAndValue enumDef value1
    let r := visitField g mode (name ++ idx) er.1 er.2.1 er.2.2 (id ++ idx) s
    if r.1 then
      let v1 := setScalarFromChars ty (efGet r.2.editFields (id ++ idx)).data
      let rr := visitVecScalars g mode name ty enumDef rest id (i + 1)
        {r.2 with flatbufferModified := true}
      (rr.1, v1 :: rr.2)
    else
      let rr := visitVecScalars g mode name ty enumDef rest id (i + 1) r.2
      (rr.1, v :: rr.2)

/-- The string-element loop of `VisitFlatbufferVector`: a committed element
is replaced through `SetString` and the visit immediately reports a resize,
leaving the remaining elements for the next pass. -/
def visitVecStrings (g : Gui) (mode : VisitMode) (name : String) :
    List String → String → Nat → EdState → Bool × EdState × List String
  | [], _, _, s => (false, s, [])
  | str0 :: rest, id, i, s =>
    let idx := "[" ++ numToString (i : Int) ++ "]"
    let r := visitField g mode (name ++ idx) str0 "string" "" (id ++ idx) s
    if r.1 then
      (true, {r.2 with flatbufferModified := true},
       efGet r.2.editFields (id ++ idx) :: rest)
    else
      let rr := visitVecStrings g mode name rest id (i + 1) r.2
      (rr.1, rr.2.1, str0 :: rr.2.2)

/-- The struct-element loop of `VisitFlatbufferVector`: struct elements are
visited in place and never resize. -/
def visitVecStructs (g : Gui) (mode : VisitMode) (name tyname : String) (ftys : STyList) :
    List SValList → String → Nat → EdState → EdState × List SValList
  | [], _, _, s => (s, [])
  | vals0 :: rest, id, i, s =>
    let idx := "[" ++ numToString (i : Int) ++ "]"
    let r := visitFlatbufferStruct g mode name tyname ftys vals0 (id ++ idx) s
    let rr := visitVecStructs g mode name tyname ftys rest id (i + 1) r.1
    (rr.1, r.2 :: rr.2)

/-! ### The mutual traversal

`visitFlatbufferField` is `VisitFlatbufferField` (dispatch on the field
kind, absent fields going through `AddFieldButton`), `visitFlatbufferTable`
is `VisitFlatbufferTable` (fields in schema order, stopping at the first
resize), `visitVecTables` is the table-element loop of
`VisitFlatbufferVector`.  The body of `VisitSubtable` — the
expansion/collapse gate around the nested-table recursion — is inlined at
the table-field and vector-of-table call sites.  Each returns
(resize-occurred, state, updated data). -/

def subtableExpanded (mode : VisitMode) (id : String) (s : EdState) : Bool :=
  mode = .kCommitEdits ∨ mode = .kCheckEdits ∨ s.expandAll = true
    ∨ id ∈ s.expandedSubtables

/-- The pre-recursion part of `VisitSubtable`'s expanded branch: a click on
the field name collapses the subtable (unless `expand_all()`). -/
def subtableCollapseClick (g : Gui) (mode : VisitMode) (id : String) (s : EdState) :
    EdState :=
  if IsDraw mode && g.clicked (id ++ "-fieldName") && !s.expandAll then
    {s with expandedSubtables := s.expandedSubtables.erase id}
  else s

/-- The collapsed branch of `VisitSubtable`: a click expands the subtable. -/
def subtableExpandClick (g : Gui) (mode : VisitMode) (id : String) (s : EdState) :
    EdState :=
  if IsDraw mode && g.clicked (id ++ "-field") then
    {s with expandedSubtables := setInsert s.expandedSubtables id}
  else s

mutual
def visitFlatbufferField (g : Gui) (mode : VisitMode) (e : Entry) (id : String)
    (s : EdState) : Bool × EdState × Entry :=
  match e with
  | .scalarE name ty en stored =>
    let nid := id ++ "." ++ name
    (match stored with
     | none =>
       let r := addFieldButton g mode name "scalar" nid s
       -- adding a scalar field is unimplemented in the source (TODO); no change
       (false, r.2, .scalarE name ty en none)
     | some v =>
       let r := visitFlatbufferScalar g mode name ty en v nid s
       (false, r.1, .scalarE name ty en (some r.2)))
  | .stringE name stored =>
    let nid := id ++ "." ++ name
    (match stored with
     | none =>
       let r := addFieldButton g mode name "string" nid s
       if r.1 then
         -- the source adds a "--blank--" string, sets the modified flag and
         -- reports a resize
         (true, {r.2 with flatbufferModified := true}, .stringE name (some "--blank--"))
       else (false, r.2, .stringE name none)
     | some str0 =>
       let r := visitFlatbufferString g mode name str0 nid s
       (r.1, r.2.1, .stringE name (some r.2.2)))
  | .structE name tyname ftys stored =>
    let nid := id ++ "." ++ name
    (match stored with
     | none =>
       let r := addFieldButton g mode name "struct" nid s
       (false, r.2, .structE name tyname ftys none)
     | some vals =>
       let r := visitFlatbufferStruct g mode name tyname ftys vals nid s
       (false, r.1, .structE name tyname ftys (some r.2)))
  | .tableAbsent name =>
    let nid := id ++ "." ++ name
    let r := addFieldButton g mode name "table" nid s
    (false, r.2, .tableAbsent name)
  | .tableE name tyname sub =>
    let nid := id ++ "." ++ name
    if subtableExpanded mode nid s then
      let s1 := subtableCollapseClick g mode nid s
      let r := visitFlatbufferTable g mode sub nid s1
      (r.1, r.2.1, .tableE name tyname r.2.2)
    else
      (false, subtableExpandClick g mode nid s, .tableE name tyname sub)
  | .vectorAbsent name =>
    let nid := id ++ "." ++ name
    let r := addFieldButton g mode name "vector" nid s
    (false, r.2, .vectorAbsent name)
  | .vectorScalars name ty en vals =>
    let nid := id ++ "." ++ name
    let rsz := visitVectorSize g mode name vals.length nid s
    if rsz.1 then
      let n1 := toU32 (stringToInt (efGet rsz.2.editFields (nid ++ ".size")).data)
      -- ResizeAnyVector; note: the resize path does NOT set flatbuffer_modified_
      (true, rsz.2, .vectorScalars name ty en (resizeListD vals n1 0))
    else
      let r := visitVecScalars g mode name ty en vals nid 0 rsz.2
      (false, r.1, .vectorScalars name ty en r.2)
  | .vectorStrings name vals =>
    let nid := id ++ "." ++ name
    let rsz := visitVectorSize g mode name vals.length nid s
    if rsz.1 then
      let n1 := toU32 (stringToInt (efGet rsz.2.editFields (nid ++ ".size")).data)
      (true, rsz.2, .vectorStrings name (resizeListD vals n1 ""))
    else
      let r := visitVecStrings g mode name vals nid 0 rsz.2
      (r.1, r.2.1, .vectorStrings name r.2.2)
  | .vectorStructs name tyname ftys vals =>
    let nid := id ++ "." ++ name
    let rsz := visitVectorSize g mode name vals.length nid s
    if rsz.1 then
      let n1 := toU32 (stringToInt (efGet rsz.2.editFields (nid ++ ".size")).data)
      (true, rsz.2, .vectorStructs name tyname ftys (resizeListD vals n1 (zeroSVals ftys)))
    else
      let r := visitVecStructs g mode name tyname ftys vals nid 0 rsz.2
      (false, r.1, .vectorStructs name tyname ftys r.2)
  | .vectorTables name tyname subs =>
    let nid := id ++ "." ++ name
    let rsz := visitVectorSize g mode name (tlLength subs) nid s
    if rsz.1 then
      let n1 := toU32 (stringToInt (efGet rsz.2.editFields (nid ++ ".size")).data)
      (true, rsz.2, .vectorTables name tyname (resizeTables subs n1))
    else
      let r := visitVecTables g mode subs nid 0 rsz.2
      (r.1, r.2.1, .vectorTables name tyname r.2.2)
def visitFlatbufferTable (g : Gui) (mode : VisitMode) (t : Table) (id : String)
    (s : EdState) : Bool × EdState × Table :=
  match t with
  | .nil => (false, s, .nil)
  | .cons e rest =>
    let r := visitFlatbufferField g mode e id s
    if r.1 then (true, r.2.1, .cons r.2.2 rest)
    else
      let rr := visitFlatbufferTable g mode rest id r.2.1
      (rr.1, rr.2.1, .cons r.2.2 rr.2.2)
def visitVecTables (g : Gui) (mode : VisitMode) (subs : TableList) (id : String)
    (i : Nat) (s : EdState) : Bool × EdState × TableList :=
  match subs with
  | .nil => (false, s, .nil)
  | .cons t rest =>
    let idx := "[" ++ numToString (i : Int) ++ "]"
    let eid := id ++ idx
    if subtableExpanded mode eid s then
      let s1 := subtableCollapseClick g mode eid s
      let r := visitFlatbufferTable g mode t eid s1
      if r.1 then (true, r.2.1, .cons r.2.2 rest)
      else
        let rr := visitVecTables g mode rest id (i + 1) r.2.1
        (rr.1, rr.2.1, .cons r.2.2 rr.2.2)
    else
      let s1 := subtableExpandClick g mode eid s
      let rr := visitVecTables g mode rest id (i + 1) s1
      (rr.1, rr.2.1, .cons t rr.2.2)
end

/-! ### Per-frame drivers -/

/-- A GUI oracle reporting no events; `CommitEditsToFlatbuffer` runs outside
any rendering pass, where no GUI calls are made. -/
def guiNone : Gui := ⟨fun _ => false, fun _ => false, fun _ => false⟩

/-- The do-while loop of `FlatbufferEditor::CommitEditsToFlatbuffer`: run a
`kCommitEdits` pass from the root; whenever the pass reports a resize,
restart from the root.  The loop is not structurally bounded in the source
(it runs until a pass reports no resize), so the model carries fuel and
returns `none` when it is exhausted. -/
def commitLoop (g : Gui) : Nat → EdState → Table → Option (EdState × Table)
  | 0, _, _ => none
  | fuel + 1, s, t =>
    let r := visitFlatbufferTable g .kCommitEdits t s.rootId s
    if r.1 then commitLoop g fuel r.2.1 r.2.2 else some (r.2.1, r.2.2)

/-- `FlatbufferEditor::CommitEditsToFlatbuffer`: the restart loop followed by
`edit_fields_modified_ = false`.  The draft map itself is not cleared. -/
def commitEditsToFlatbuffer (g : Gui) (fuel : Nat) (s : EdState) (t : Table) :
    Option (EdState × Table) :=
  (commitLoop g fuel s t).map fun p => ({p.1 with editFieldsModified := false}, p.2)

/-- `FlatbufferEditor::ClearEditFields`: clear all drafts, the edit-modified
flag and the error set. -/
def clearEditFields (s : EdState) : EdState :=
  {s with editFields := [], editFieldsModified := false, errorFields := []}

/-- `FlatbufferEditor::Update`: apply a pending force-commit or commit-button
press (via `CommitEditsToFlatbuffer`), else a pending revert-button press
(via `ClearEditFields`); then clear the pending button and force-commit
request.  The keyboard-in-use flag is not touched here.  Modelled for an
editor holding data (the source would dereference an empty buffer
otherwise). -/
def update (g : Gui) (fuel : Nat) (s : EdState) (t : Table) : Option (EdState × Table) :=
  let r :=
    if s.forceCommitField ≠ "" ∨ s.buttonPressed = .kCommit then
      commitEditsToFlatbuffer g fuel s t
    else if s.buttonPressed = .kRevert then some (clearEditFields s, t)
    else some (s, t)
  r.map fun p => ({p.1 with buttonPressed := .kNone, forceCommitField := ""}, p.2)

def drawVisitMode (s : EdState) : VisitMode :=
  if s.configReadOnly then .kDrawReadOnly
  else if s.configAutoCommit then .kDrawEditAuto
  else .kDrawEditManual

/-- `FlatbufferEditor::Draw`: clear the keyboard flag, and when data is
present run a `kCheckEdits` pass, offer Apply-All / Revert-All in manual
mode when edits exist (the source gives both buttons the same control id),
run the draw pass, and queue a force-commit when the previously edited field
lost focus with edits pending. -/
def draw (g : Gui) (s : EdState) (buf : Option Table) : EdState × Option Table :=
  let s0 := {s with keyboardInUse := false}
  match buf with
  | none => (s0, none)
  | some t =>
    let s1 := {s0 with editFieldsModified := false}
    let rc := visitFlatbufferTable g .kCheckEdits t s1.rootId s1
    let s2 := rc.2.1
    let s3 := if ¬s2.configAutoCommit = true ∧ s2.editFieldsModified = true then
        let sa := if g.pressed (s2.rootId ++ "-button-commit") then
            {s2 with buttonPressed := .kCommit}
          else s2
        if g.pressed (s2.rootId ++ "-button-commit") then
          {sa with buttonPressed := .kRevert}
        else sa
      else s2
    let prev := s3.currentlyEditingField
    let s4 := {s3 with currentlyEditingField := ""}
    let rd := visitFlatbufferTable g (drawVisitMode s4) rc.2.2 s4.rootId s4
    let s5 := rd.2.1
    let s6 := if prev ≠ "" ∧ s5.currentlyEditingField = "" ∧ s5.editFieldsModified = true then
        {s5 with forceCommitField := prev}
      else s5
    (s6, some rd.2.2)

/-! ### The constructor (`FlatbufferEditor::FlatbufferEditor`) -/

structure FlatbufferEditorConfig where
  read_only : Bool
  auto_commit_edits : Bool
  ui_size : Int
  ui_spacing : Int
  blank_field_width : Int
  deriving DecidableEq

structure EditorInitState where
  configReadOnly : Bool
  configAutoCommit : Bool
  uiSize : Int
  uiSpacing : Int
  blankFieldWidth : Int
  flatbufferModified : Bool
  editFieldsModified : Bool
  hasData : Bool
  deriving DecidableEq

def kDefaultUISize : Int := 20
def kDefaultUISpacing : Int := 4
def kDefaultBlankStringWidth : Int := 10

/-- The constructor body.  It reads `config->read_only()` and
`config->auto_commit_edits()` unconditionally, BEFORE the
`config == nullptr` branch that would install default UI settings; a null
config therefore faults (modelled as `none`) on those first reads and the
defaulting branch below is unreachable.  The address-derived default
`root_id_` and the colour loading are display-only and omitted. -/
def flatbufferEditorCtor (config : Option FlatbufferEditorConfig)
    (flatbufferData : Option (List Nat)) : Option EditorInitState :=
  match config with
  | none => none
  | some c =>
    let cro := c.read_only
    let cac := c.auto_commit_edits
    let hasData := flatbufferData.isSome
    if config.isNone then
      some { configReadOnly := cro, configAutoCommit := cac,
             uiSize := kDefaultUISize, uiSpacing := kDefaultUISpacing,
             blankFieldWidth := kDefaultBlankStringWidth,
             flatbufferModified := false, editFieldsModified := false,
             hasData := hasData }
    else
      some { configReadOnly := cro, configAutoCommit := cac,
             uiSize := c.ui_size, uiSpacing := c.ui_spacing,
             blankFieldWidth := c.blank_field_width,
             flatbufferModified := false, editFieldsModified := false,
             hasData := hasData }

/-! ### Concrete instances used by the claim theorems and witnesses -/

def i32 : ScalarTy := ⟨true, 32⟩

def baseState : EdState :=
  { editFields := [], expandedSubtables := [], committedFields := [], errorFields := [],
    rootId := "fb", currentlyEditingField := "", forceCommitField := "",
    buttonPressed := .kNone, keyboardInUse := false, showTypes := false,
    expandAll := false, configReadOnly := false, configAutoCommit := true,
    editFieldsModified := false, flatbufferModified := false }

def c1State : EdState := {baseState with editFields := [("fb.count", "notanumber")]}

def c1Buf : Table := .cons (.scalarE "count" i32 none (some 3)) .nil

def c1WitState : EdState := {baseState with editFields := [("fb.count", "7")]}

def vec2Tys : STyList := .cons (.scalarS i32) (.cons (.scalarS i32) .nil)

def vec2Vals : SValList := .cons (.scalarV 1) (.cons (.scalarV 2) .nil)

def c2State : EdState :=
  {baseState with editFields := [("fb.pos", "garbage"), ("fb.count", "7")]}

def c2Buf : Table :=
  .cons (.structE "pos" "Vec2" vec2Tys (some vec2Vals))
    (.cons (.scalarE "count" i32 none (some 3)) .nil)

def c3State : EdState := {baseState with editFields := [("fb.count", "7")]}

def c4InnerTys : STyList := .cons (.scalarS i32) (.cons (.scalarS i32) .nil)

def c4Tys : STyList :=
  .cons (.scalarS i32) (.cons (.scalarS i32)
    (.cons (.objS c4InnerTys) (.cons (.scalarS i32) .nil)))

def c4Vals : SValList :=
  .cons (.scalarV 1) (.cons (.scalarV 2)
    (.cons (.objV (.cons (.scalarV 3) (.cons (.scalarV 4) .nil)))
      (.cons (.scalarV 5) .nil)))

def c4FlatVals : SValList := .cons (.scalarV 7) (.cons (.scalarV (-9)) .nil)

def c4FlatZero : SValList := .cons (.scalarV 0) (.cons (.scalarV 0) .nil)

def c4TrailTys : STyList := .cons (.scalarS i32) (.cons (.objS c4InnerTys) .nil)

def c4TrailVals : SValList :=
  .cons (.scalarV 1)
    (.cons (.objV (.cons (.scalarV 2) (.cons (.scalarV 3) .nil))) .nil)

def c5State : EdState :=
  {baseState with editFields := [("fb.tags.size", "3")],
                  forceCommitField := "fb.tags.size"}

def c5Buf : Table := .cons (.vectorScalars "tags" i32 none [1, 2]) .nil

def flagsEnum1248 : EnumDef :=
  ⟨"Flags", [⟨"FlagA", 1⟩, ⟨"FlagB", 2⟩, ⟨"FlagC", 4⟩, ⟨"FlagD", 8⟩]⟩

def flagsEnum12 : EnumDef := ⟨"Flags2", [⟨"FlagA", 1⟩, ⟨"FlagB", 2⟩]⟩

def simpleEnum : EnumDef := ⟨"Simple", [⟨"Alpha", 1⟩, ⟨"Beta", 3⟩]⟩

def c7State : EdState := {baseState with editFields := [("fb.tags.size", "9")]}

/-- An oracle with every edit control focused and nothing pressed/clicked. -/
def gEditAll : Gui := ⟨fun _ => true, fun _ => false, fun _ => false⟩

/-- An oracle pressing exactly the apply button of the `fb.tags.size` field. -/
def gApplySize : Gui := ⟨fun _ => false, fun k => k = "fb.tags.size-apply", fun _ => false⟩

def c7ForceState : EdState :=
  {baseState with editFields := [("fb.tags.size", "9")], forceCommitField := "fb.other"}

def c9State : EdState := {baseState with keyboardInUse := true}

def c9WitState : EdState :=
  {baseState with keyboardInUse := true, forceCommitField := "fb.x"}

/-! ## Theorems -/

/-! ### Round-trip lemmas for the decimal codec -/

theorem digitChar_isDigit {d : Nat} (h : d < 10) : (digitChar d).isDigit = true := by
  interval_cases d <;> decide

theorem digitChar_toNat {d : Nat} (h : d < 10) : (digitChar d).toNat = 48 + d := by
  interval_cases d <;> decide

theorem natToCharsAux_digits (fuel : Nat) :
    ∀ n, ∀ c ∈ natToCharsAux fuel n, c.isDigit = true := by
  induction fuel with
  | zero => intro n c hc; simp [natToCharsAux] at hc
  | succ f ih =>
    intro n c hc
    by_cases hn : n = 0
    · simp [natToCharsAux, hn] at hc
    · simp only [natToCharsAux, if_neg hn, List.mem_append, List.mem_singleton] at hc
      rcases hc with hc | hc
      · exact ih _ c hc
      · subst hc; exact digitChar_isDigit (Nat.mod_lt _ (by norm_num))

theorem natToChars_digits (n : Nat) : ∀ c ∈ natToChars n, c.isDigit = true := by
  intro c hc
  by_cases hn : n = 0
  · simp [natToChars, hn] at hc; subst hc; decide
  · simp only [natToChars, if_neg hn] at hc
    exact natToCharsAux_digits _ _ c hc

theorem parseDigitsNat_append (A B : List Char) (acc : Nat)
    (hA : ∀ c ∈ A, c.isDigit = true) :
    parseDigitsNat (A ++ B) acc = parseDigitsNat B (parseDigitsNat A acc) := by
  induction A generalizing acc with
  | nil => simp [parseDigitsNat]
  | cons c cs ih =>
    have hc : c.isDigit = true := hA c (by simp)
    simp only [List.cons_append, parseDigitsNat, hc, if_true]
    exact ih _ (fun x hx => hA x (by simp [hx]))

theorem parseDigitsNat_natToCharsAux (fuel : Nat) :
    ∀ n acc, n < 10 ^ fuel →
      parseDigitsNat (natToCharsAux fuel n) acc
        = acc * 10 ^ (natToCharsAux fuel n).length + n := by
  induction fuel with
  | zero =>
    intro n acc h
    interval_cases n
    simp [natToCharsAux, parseDigitsNat]
  | succ f ih =>
    intro n acc h
    by_cases hn : n = 0
    · subst hn; simp [natToCharsAux, parseDigitsNat]
    · have hdiv : n / 10 < 10 ^ f := by
        rw [Nat.div_lt_iff_lt_mul (by norm_num : 0 < 10)]
        calc n < 10 ^ (f + 1) := h
          _ = 10 ^ f * 10 := by rw [pow_succ]
      have hd : n % 10 < 10 := Nat.mod_lt _ (by norm_num)
      simp only [natToCharsAux, if_neg hn]
      rw [parseDigitsNat_append _ _ _ (natToCharsAux_digits f (n / 10))]
      rw [ih (n / 10) acc hdiv]
      have h1 : parseDigitsNat [digitChar (n % 10)]
          (acc * 10 ^ (natToCharsAux f (n / 10)).length + n / 10)
          = (acc * 10 ^ (natToCharsAux f (n / 10)).length + n / 10) * 10 + n % 10 := by
        simp [parseDigitsNat, digitChar_isDigit hd, digitChar_toNat hd]
      rw [h1, List.length_append, List.length_singleton]
      calc (acc * 10 ^ (natToCharsAux f (n / 10)).length + n / 10) * 10 + n % 10
          = acc * (10 ^ (natToCharsAux f (n / 10)).length * 10)
            + (10 * (n / 10) + n % 10) := by ring
        _ = acc * 10 ^ ((natToCharsAux f (n / 10)).length + 1) + n := by
            rw [Nat.div_add_mod, pow_succ]

theorem parseDigitsNat_natToChars (n : Nat) : parseDigitsNat (natToChars n) 0 = n := by
  by_cases hn : n = 0
  · subst hn; decide
  · have h : n < 10 ^ (n + 1) := by
      calc n < 2 ^ n := Nat.lt_two_pow n
        _ ≤ 10 ^ n := Nat.pow_le_pow_left (by norm_num) n
        _ ≤ 10 ^ (n + 1) := Nat.pow_le_pow_right (by norm_num) (Nat.le_succ n)
    simpa [natToChars, if_neg hn] using parseDigitsNat_natToCharsAux (n + 1) n 0 h

theorem natToChars_ne_nil (n : Nat) : natToChars n ≠ [] := by
  by_cases hn : n = 0
  · simp [natToChars, hn]
  · simp only [natToChars, if_neg hn]
    intro hfalse
    have := parseDigitsNat_natToChars n
    simp only [natToChars, if_neg hn] at this
    rw [hfalse] at this
    simp [parseDigitsNat] at this
    exact hn this.symm

theorem isDigit_ne_symbols {c : Char} (h : c.isDigit = true) :
    c ≠ ' ' ∧ c ≠ '-' ∧ c ≠ '+' := by
  refine ⟨?_, ?_, ?_⟩ <;> intro he <;> subst he <;> simp at h

theorem stringToIntAux_natToChars (n : Nat) : stringToIntAux (natToChars n) = n := by
  obtain ⟨c, cs, hL⟩ := List.exists_cons_of_ne_nil (natToChars_ne_nil n)
  have hc : c.isDigit = true := natToChars_digits n c (by rw [hL]; simp)
  obtain ⟨hsp, hmi, hpl⟩ := isDigit_ne_symbols hc
  have hdw : (natToChars n).dropWhile (fun c => c = ' ') = natToChars n := by
    rw [hL, List.dropWhile_cons, if_neg (by simpa using hsp)]
  rw [stringToIntAux, hdw, hL, stringToIntGo]
  rw [if_neg hmi, if_neg hpl, ← hL, parseDigitsNat_natToChars n]

theorem stringToIntAux_numToChars (v : Int) : stringToIntAux (numToChars v) = v := by
  by_cases hv : v < 0
  · have habs : ((v.natAbs : Int)) = -v := by omega
    simp only [numToChars, if_pos hv]
    rw [stringToIntAux]
    have hdw : (('-' :: natToChars v.natAbs).dropWhile (fun c => c = ' '))
        = '-' :: natToChars v.natAbs := by
      rw [List.dropWhile_cons, if_neg (by simp)]
    rw [hdw, stringToIntGo, if_pos rfl]
    have := parseDigitsNat_natToChars v.natAbs
    rw [this]
    omega
  · simp only [numToChars, if_neg hv]
    rw [stringToIntAux_natToChars]
    omega

theorem stringToInt_numToChars (v : Int) (h1 : -(2 ^ 63) ≤ v) (h2 : v ≤ 2 ^ 63 - 1) :
    stringToInt (numToChars v) = v := by
  rw [stringToInt, stringToIntAux_numToChars, clampI64]
  rw [min_eq_right h2, max_eq_right h1]

theorem numToChars_injective {v w : Int} (h : numToChars v = numToChars w) : v = w := by
  have hv := stringToIntAux_numToChars v
  have hw := stringToIntAux_numToChars w
  rw [h] at hv
  omega

theorem numToString_injective {v w : Int} (h : numToString v = numToString w) : v = w := by
  apply numToChars_injective
  exact congrArg String.data h

theorem two_pow_le_two_pow {a b : Nat} (h : a ≤ b) : (2 : Int) ^ a ≤ 2 ^ b :=
  pow_le_pow_right₀ (by norm_num) h

theorem ScalarTy.wrap_eq_self (ty : ScalarTy) (v : Int) (hw : 0 < ty.width)
    (h1 : ty.minV ≤ v) (h2 : v ≤ ty.maxV) : ty.wrap v = v := by
  have hsplit : (2 : Int) ^ ty.width = 2 ^ (ty.width - 1) * 2 := by
    rw [← pow_succ]
    congr 1
    omega
  have hhalf : (0 : Int) < 2 ^ (ty.width - 1) := by positivity
  rcases hsg : ty.signed with _ | _
  · -- unsigned: 0 ≤ v < 2^w, no sign adjustment
    simp only [ScalarTy.minV, hsg, Bool.false_eq_true, if_false] at h1
    simp only [ScalarTy.maxV, hsg, Bool.false_eq_true, if_false] at h2
    have hm : v % (2 ^ ty.width : Int) = v := Int.emod_eq_of_lt h1 (by omega)
    rw [ScalarTy.wrap, hm, if_neg (by simp [hsg])]
  · -- signed
    simp only [ScalarTy.minV, hsg, if_true] at h1
    simp only [ScalarTy.maxV, hsg, if_true] at h2
    by_cases hv : 0 ≤ v
    · have hm : v % (2 ^ ty.width : Int) = v := Int.emod_eq_of_lt hv (by omega)
      rw [ScalarTy.wrap, hm, if_neg ?_]
      rintro ⟨-, hle⟩
      omega
    · have hq : v % (2 ^ ty.width : Int) = v + 2 ^ ty.width := by
        have hrw : (v + 2 ^ ty.width) % (2 ^ ty.width : Int) = v % (2 ^ ty.width : Int) := by
          have := Int.add_mul_emod_self_left (a := v) (b := (2 ^ ty.width : Int)) (c := 1)
          simp only [mul_one] at this
          exact this
        rw [← hrw]
        exact Int.emod_eq_of_lt (by omega) (by omega)
      rw [ScalarTy.wrap, hq, if_pos ⟨hsg, by omega⟩]
      omega



/-! ### Lemmas about the draft map -/

theorem efLookup_efSet_self (m : List (String × String)) (k v : String) :
    efLookup (efSet m k v) k = some v := by
  induction m with
  | nil => simp [efSet, efLookup]
  | cons p rest ih =>
    obtain ⟨k0, v0⟩ := p
    by_cases hk : k0 = k
    · subst hk; simp [efSet, efLookup]
    · simp [efSet, efLookup, hk, ih]

theorem efLookup_efSet_isSome (m : List (String × String)) (k v k' : String)
    (h : (efLookup m k').isSome) : (efLookup (efSet m k v) k').isSome := by
  induction m with
  | nil => simp [efLookup] at h
  | cons p rest ih =>
    obtain ⟨k0, v0⟩ := p
    by_cases hk : k0 = k
    · have hset : efSet ((k0, v0) :: rest) k v = (k0, v) :: rest := by
        simp [efSet, hk]
      rw [hset]
      by_cases hk0 : k0 = k'
      · simp [efLookup, hk0]
      · simp only [efLookup, if_neg hk0] at h ⊢
        exact h
    · have hset : efSet ((k0, v0) :: rest) k v = (k0, v0) :: efSet rest k v := by
        simp [efSet, hk]
      rw [hset]
      by_cases hk0 : k0 = k'
      · simp [efLookup, hk0]
      · simp only [efLookup, if_neg hk0] at h ⊢
        exact ih h

/-! ### `VisitField` in commit mode -/

/-- `VisitField` under `kCommitEdits` when a draft exists: a differing draft
is committed when no force-commit is pending or this is the forced field;
a differing draft otherwise only flags the edit-modified bit; an agreeing
draft changes nothing. -/
theorem visitField_commit_draft (g : Gui) (name value etype comment id : String)
    (s : EdState) (d : String) (hd : efLookup s.editFields id = some d) :
    visitField g .kCommitEdits name value etype comment id s
      = if d ≠ value ∧ (s.forceCommitField = "" ∨ s.forceCommitField = id) then
          (true, {s with editFieldsModified := true,
                         committedFields := setInsert s.committedFields id})
        else if d ≠ value then (false, {s with editFieldsModified := true})
        else (false, s) := by
  have hg : efGet s.editFields id = d := by simp [efGet, hd]
  by_cases hdv : d = value
  · simp [visitField, visitFieldSeed, visitFieldEditControl, visitFieldManualButtons,
      hd, hg, hdv, IsDrawEdit]
  · by_cases hforce : s.forceCommitField = "" ∨ s.forceCommitField = id
    · simp [visitField, visitFieldSeed, visitFieldEditControl, visitFieldManualButtons,
        hd, hg, hdv, hforce, IsDrawEdit]
    · simp [visitField, visitFieldSeed, visitFieldEditControl, visitFieldManualButtons,
        hd, hg, hdv, hforce, IsDrawEdit]

/-- `VisitField` under `kCommitEdits` when no draft exists yet: the draft is
seeded from the authoritative value and nothing is committed. -/
theorem visitField_commit_seed (g : Gui) (name value etype comment id : String)
    (s : EdState) (hd : efLookup s.editFields id = none) :
    visitField g .kCommitEdits name value etype comment id s
      = (false, {s with editFields := efSet s.editFields id value}) := by
  have hg : efGet (efSet s.editFields id value) id = value := by
    simp [efGet, efLookup_efSet_self]
  simp [visitField, visitFieldSeed, visitFieldEditControl, visitFieldManualButtons,
    hd, hg, IsDrawEdit]

/-! ### Preservation invariants of the traversal

`visitPres` collects what any single visit preserves: draft-map keys are
never removed (only added or overwritten), the error set and root id are
never touched, and a commit pass additionally never touches the keyboard
flag, the currently-editing/force-commit fields, the pending button or the
expansion set (those change only through GUI interaction in draw modes). -/

def visitPres (mode : VisitMode) (s s1 : EdState) : Prop :=
  (∀ k, (efLookup s.editFields k).isSome = true →
    (efLookup s1.editFields k).isSome = true)
  ∧ s1.errorFields = s.errorFields
  ∧ s1.rootId = s.rootId
  ∧ (mode = .kCommitEdits →
      s1.keyboardInUse = s.keyboardInUse
      ∧ s1.currentlyEditingField = s.currentlyEditingField
      ∧ s1.buttonPressed = s.buttonPressed
      ∧ s1.forceCommitField = s.forceCommitField
      ∧ s1.expandedSubtables = s.expandedSubtables)

theorem visitPres_refl (mode : VisitMode) (s : EdState) : visitPres mode s s :=
  ⟨fun _ h => h, rfl, rfl, fun _ => ⟨rfl, rfl, rfl, rfl, rfl⟩⟩

theorem visitPres_trans {mode : VisitMode} {a b c : EdState}
    (h1 : visitPres mode a b) (h2 : visitPres mode b c) : visitPres mode a c := by
  refine ⟨fun k hk => h2.1 k (h1.1 k hk), h2.2.1.trans h1.2.1, h2.2.2.1.trans h1.2.2.1, ?_⟩
  intro hm
  obtain ⟨x1, x2, x3, x4, x5⟩ := h1.2.2.2 hm
  obtain ⟨y1, y2, y3, y4, y5⟩ := h2.2.2.2 hm
  exact ⟨y1.trans x1, y2.trans x2, y3.trans x3, y4.trans x4, y5.trans x5⟩

theorem visitFieldSeed_pres (mode : VisitMode) (value id : String) (s : EdState) :
    visitPres mode s (visitFieldSeed mode value id s) := by
  unfold visitFieldSeed
  split_ifs with h
  · exact ⟨fun k hk => efLookup_efSet_isSome _ _ _ _ hk, rfl, rfl,
      fun _ => ⟨rfl, rfl, rfl, rfl, rfl⟩⟩
  · exact visitPres_refl mode s

theorem visitFieldEditControl_pres (g : Gui) (mode : VisitMode) (id : String)
    (s : EdState) : visitPres mode s (visitFieldEditControl g mode id s) := by
  unfold visitFieldEditControl
  split_ifs with h1 h2
  · refine ⟨fun k hk => hk, rfl, rfl, fun hm => ?_⟩
    subst hm
    simp [IsDrawEdit] at h1
  · refine ⟨fun k hk => hk, rfl, rfl, fun hm => ?_⟩
    subst hm
    simp [IsDrawEdit] at h1
  · exact visitPres_refl mode s

theorem visitFieldManualButtons_pres (g : Gui) (mode : VisitMode) (value id : String)
    (s : EdState) : visitPres mode s (visitFieldManualButtons g mode value id s) := by
  unfold visitFieldManualButtons
  split_ifs with h1 h2 h3 <;>
    try exact visitPres_refl mode s
  all_goals
    refine ⟨fun k hk => ?_, rfl, rfl, fun hm => ?_⟩
  all_goals
    try (rw [hm] at h1; cases h1.1)
  all_goals
    first
      | exact hk
      | exact efLookup_efSet_isSome _ _ _ _ hk

theorem visitField_pres (g : Gui) (mode : VisitMode) (name value etype comment id : String)
    (s : EdState) : visitPres mode s (visitField g mode name value etype comment id s).2 := by
  have hseed := visitFieldSeed_pres mode value id s
  simp only [visitField]
  split_ifs with h1 h2 h3
  · exact hseed
  · exact ⟨hseed.1, hseed.2.1, hseed.2.2.1, fun hm => hseed.2.2.2 hm⟩
  · refine visitPres_trans hseed (visitPres_trans ?_
      (visitPres_trans (visitFieldEditControl_pres g mode id _)
        (visitFieldManualButtons_pres g mode value id _)))
    exact ⟨fun k hk => hk, rfl, rfl, fun _ => ⟨rfl, rfl, rfl, rfl, rfl⟩⟩
  · exact visitPres_trans hseed
      (visitPres_trans (visitFieldEditControl_pres g mode id _)
        (visitFieldManualButtons_pres g mode value id _))

theorem addFieldButton_pres (g : Gui) (mode : VisitMode) (name typestr id : String)
    (s : EdState) : visitPres mode s (addFieldButton g mode name typestr id s).2 := by
  unfold visitPres
  simp only [addFieldButton]
  split_ifs with h1 h2 <;>
    refine ⟨fun k hk => hk, rfl, rfl, fun hm => ?_⟩
  · exact ⟨rfl, rfl, rfl, rfl, rfl⟩
  · subst hm; simp [IsDraw, IsDrawEdit] at h2
  · exact ⟨rfl, rfl, rfl, rfl, rfl⟩

theorem visitFlatbufferScalar_pres (g : Gui) (mode : VisitMode) (name : String)
    (ty : ScalarTy) (en : Option EnumDef) (stored : Int) (id : String) (s : EdState) :
    visitPres mode s (visitFlatbufferScalar g mode name ty en stored id s).1 := by
  simp only [visitFlatbufferScalar]
  split_ifs <;> exact visitField_pres g mode name _ _ _ id s

theorem visitFlatbufferString_pres (g : Gui) (mode : VisitMode) (name : String)
    (stored : String) (id : String) (s : EdState) :
    visitPres mode s (visitFlatbufferString g mode name stored id s).2.1 := by
  simp only [visitFlatbufferString]
  split_ifs <;> exact visitField_pres g mode name _ _ _ id s

theorem visitFlatbufferStruct_pres (g : Gui) (mode : VisitMode) (name tyname : String)
    (ftys : STyList) (vals : SValList) (id : String) (s : EdState) :
    visitPres mode s (visitFlatbufferStruct g mode name tyname ftys vals id s).1 := by
  simp only [visitFlatbufferStruct]
  split_ifs <;> exact visitField_pres g mode name _ _ _ id s

theorem visitVectorSize_pres (g : Gui) (mode : VisitMode) (name : String) (len : Nat)
    (id : String) (s : EdState) :
    visitPres mode s (visitVectorSize g mode name len id s).2 := by
  unfold visitVectorSize
  by_cases hm : mode = .kDrawEditAuto
  · rw [if_pos hm]
    have h := visitField_pres g .kDrawEditManual (name ++ ".size")
      (numToString (len : Int)) "size_t" "" (id ++ ".size") s
    refine ⟨h.1, h.2.1, h.2.2.1, ?_⟩
    intro hc
    rw [hm] at hc
    cases hc
  · rw [if_neg hm]
    exact visitField_pres g mode (name ++ ".size")
      (numToString (len : Int)) "size_t" "" (id ++ ".size") s

theorem visitVecScalars_pres (g : Gui) (mode : VisitMode) (name : String) (ty : ScalarTy)
    (en : Option EnumDef) (vals : List Int) :
    ∀ (id : String) (i : Nat) (s : EdState),
      visitPres mode s (visitVecScalars g mode name ty en vals id i s).1 := by
  induction vals with
  | nil => intro id i s; exact visitPres_refl mode s
  | cons v rest ih =>
    intro id i s
    simp only [visitVecScalars]
    split_ifs <;>
      (refine visitPres_trans ?_ (ih id (i + 1) _)
       exact visitField_pres g mode _ _ _ _ _ s)

theorem visitVecStrings_pres (g : Gui) (mode : VisitMode) (name : String)
    (vals : List String) :
    ∀ (id : String) (i : Nat) (s : EdState),
      visitPres mode s (visitVecStrings g mode name vals id i s).2.1 := by
  induction vals with
  | nil => intro id i s; exact visitPres_refl mode s
  | cons v rest ih =>
    intro id i s
    simp only [visitVecStrings]
    split_ifs with h1
    · exact visitField_pres g mode _ _ _ _ _ s
    · refine visitPres_trans ?_ (ih id (i + 1) _)
      exact visitField_pres g mode _ _ _ _ _ s

theorem visitVecStructs_pres (g : Gui) (mode : VisitMode) (name tyname : String)
    (ftys : STyList) (vals : List SValList) :
    ∀ (id : String) (i : Nat) (s : EdState),
      visitPres mode s (visitVecStructs g mode name tyname ftys vals id i s).1 := by
  induction vals with
  | nil => intro id i s; exact visitPres_refl mode s
  | cons v rest ih =>
    intro id i s
    simp only [visitVecStructs]
    refine visitPres_trans ?_ (ih id (i + 1) _)
    exact visitFlatbufferStruct_pres g mode name tyname ftys v _ s

theorem subtableCollapseClick_pres (g : Gui) (mode : VisitMode) (id : String)
    (s : EdState) : visitPres mode s (subtableCollapseClick g mode id s) := by
  unfold subtableCollapseClick
  split_ifs with h
  · refine ⟨fun k hk => hk, rfl, rfl, ?_⟩
    intro hm
    subst hm
    simp [IsDraw] at h
  · exact visitPres_refl mode s

theorem subtableExpandClick_pres (g : Gui) (mode : VisitMode) (id : String)
    (s : EdState) : visitPres mode s (subtableExpandClick g mode id s) := by
  unfold subtableExpandClick
  split_ifs with h
  · refine ⟨fun k hk => hk, rfl, rfl, ?_⟩
    intro hm
    subst hm
    simp [IsDraw] at h
  · exact visitPres_refl mode s

mutual
theorem visitFlatbufferField_pres (g : Gui) (mode : VisitMode) (e : Entry) (id : String)
    (s : EdState) : visitPres mode s (visitFlatbufferField g mode e id s).2.1 := by
  cases e with
  | scalarE name ty en stored =>
    cases stored with
    | none =>
      simp only [visitFlatbufferField]
      exact addFieldButton_pres g mode name "scalar" (id ++ "." ++ name) s
    | some v =>
      simp only [visitFlatbufferField]
      exact visitFlatbufferScalar_pres g mode name ty en v (id ++ "." ++ name) s
  | stringE name stored =>
    cases stored with
    | none =>
      simp only [visitFlatbufferField]
      split_ifs with h
      · exact addFieldButton_pres g mode name "string" (id ++ "." ++ name) s
      · exact addFieldButton_pres g mode name "string" (id ++ "." ++ name) s
    | some str0 =>
      simp only [visitFlatbufferField]
      exact visitFlatbufferString_pres g mode name str0 (id ++ "." ++ name) s
  | structE name tyname ftys stored =>
    cases stored with
    | none =>
      simp only [visitFlatbufferField]
      exact addFieldButton_pres g mode name "struct" (id ++ "." ++ name) s
    | some vals =>
      simp only [visitFlatbufferField]
      exact visitFlatbufferStruct_pres g mode name tyname ftys vals (id ++ "." ++ name) s
  | tableAbsent name =>
    simp only [visitFlatbufferField]
    exact addFieldButton_pres g mode name "table" (id ++ "." ++ name) s
  | tableE name tyname sub =>
    simp only [visitFlatbufferField]
    split_ifs with h
    · exact visitPres_trans
        (subtableCollapseClick_pres g mode (id ++ "." ++ name) s)
        (visitFlatbufferTable_pres g mode sub (id ++ "." ++ name) _)
    · exact subtableExpandClick_pres g mode (id ++ "." ++ name) s
  | vectorAbsent name =>
    simp only [visitFlatbufferField]
    exact addFieldButton_pres g mode name "vector" (id ++ "." ++ name) s
  | vectorScalars name ty en vals =>
    simp only [visitFlatbufferField]
    split_ifs with h
    · exact visitVectorSize_pres g mode name vals.length (id ++ "." ++ name) s
    · exact visitPres_trans
        (visitVectorSize_pres g mode name vals.length (id ++ "." ++ name) s)
        (visitVecScalars_pres g mode name ty en vals (id ++ "." ++ name) 0 _)
  | vectorStrings name vals =>
    simp only [visitFlatbufferField]
    split_ifs with h
    · exact visitVectorSize_pres g mode name vals.length (id ++ "." ++ name) s
    · exact visitPres_trans
        (visitVectorSize_pres g mode name vals.length (id ++ "." ++ name) s)
        (visitVecStrings_pres g mode name vals (id ++ "." ++ name) 0 _)
  | vectorStructs name tyname ftys vals =>
    simp only [visitFlatbufferField]
    split_ifs with h
    · exact visitVectorSize_pres g mode name vals.length (id ++ "." ++ name) s
    · exact visitPres_trans
        (visitVectorSize_pres g mode name vals.length (id ++ "." ++ name) s)
        (visitVecStructs_pres g mode name tyname ftys vals (id ++ "." ++ name) 0 _)
  | vectorTables name tyname subs =>
    simp only [visitFlatbufferField]
    split_ifs with h
    · exact visitVectorSize_pres g mode name (tlLength subs) (id ++ "." ++ name) s
    · exact visitPres_trans
        (visitVectorSize_pres g mode name (tlLength subs) (id ++ "." ++ name) s)
        (visitVecTables_pres g mode subs (id ++ "." ++ name) 0 _)
theorem visitFlatbufferTable_pres (g : Gui) (mode : VisitMode) (t : Table) (id : String)
    (s : EdState) : visitPres mode s (visitFlatbufferTable g mode t id s).2.1 := by
  cases t with
  | nil => exact visitPres_refl mode s
  | cons e rest =>
    simp only [visitFlatbufferTable]
    split_ifs with h
    · exact visitFlatbufferField_pres g mode e id s
    · exact visitPres_trans
        (visitFlatbufferField_pres g mode e id s)
        (visitFlatbufferTable_pres g mode rest id _)
theorem visitVecTables_pres (g : Gui) (mode : VisitMode) (subs : TableList) (id : String)
    (i : Nat) (s : EdState) : visitPres mode s (visitVecTables g mode subs id i s).2.1 := by
  cases subs with
  | nil => exact visitPres_refl mode s
  | cons t rest =>
    simp only [visitVecTables]
    split_ifs with h1 h2
    · exact visitPres_trans
        (subtableCollapseClick_pres g mode _ s)
        (visitFlatbufferTable_pres g mode t _ _)
    · exact visitPres_trans
        (visitPres_trans (subtableCollapseClick_pres g mode _ s)
          (visitFlatbufferTable_pres g mode t _ _))
        (visitVecTables_pres g mode rest id (i + 1) _)
    · exact visitPres_trans
        (subtableExpandClick_pres g mode _ s)
        (visitVecTables_pres g mode rest id (i + 1) _)
end

theorem commitLoop_pres (g : Gui) (fuel : Nat) :
    ∀ (s : EdState) (t : Table) (p : EdState × Table),
      commitLoop g fuel s t = some p → visitPres .kCommitEdits s p.1 := by
  induction fuel with
  | zero => intro s t p h; simp [commitLoop] at h
  | succ f ih =>
    intro s t p h
    simp only [commitLoop] at h
    split_ifs at h with hr
    · exact visitPres_trans
        (visitFlatbufferTable_pres g .kCommitEdits t s.rootId s) (ih _ _ _ h)
    · have h1 := visitFlatbufferTable_pres g .kCommitEdits t s.rootId s
      have hp : p.1 = (visitFlatbufferTable g .kCommitEdits t s.rootId s).2.1 := by
        cases h
        rfl
      rw [hp]
      exact h1

theorem commitEditsToFlatbuffer_pres (g : Gui) (fuel : Nat) (s : EdState) (t : Table)
    (p : EdState × Table) (h : commitEditsToFlatbuffer g fuel s t = some p) :
    visitPres .kCommitEdits s p.1 ∧ p.1.editFieldsModified = false := by
  unfold commitEditsToFlatbuffer at h
  cases hp : commitLoop g fuel s t with
  | none => rw [hp] at h; simp at h
  | some q =>
    rw [hp] at h
    have hpres := commitLoop_pres g fuel s t q hp
    have h3 : ({q.1 with editFieldsModified := false}, q.2) = p :=
      Option.some.inj h
    have hq : p.1 = {q.1 with editFieldsModified := false} :=
      (congrArg Prod.fst h3).symm
    constructor
    · rw [hq]
      exact ⟨hpres.1, hpres.2.1, hpres.2.2.1, hpres.2.2.2⟩
    · rw [hq]

/-! ### C3: the commit-everything loop -/

/-- C3 (counterexample): after a successful commit-everything request over a
scalar with pending draft `"7"`, the draft entry is still present in the
edit-field map (it is not removed; only the edit-modified flag is reset). -/
theorem c3_counterexample :
    (commitEditsToFlatbuffer guiNone 2 c3State c1Buf).map
      (fun p => efLookup p.1.editFields "fb.count") = some (some "7") := by decide

/-- C3 (amended): a commit-everything request reruns the `kCommitEdits`
traversal from the root until a pass reports no resize (the restart is the
recursion of `commitLoop` on a `true` pass); when the loop terminates it
clears only the edit-fields-modified flag — per-field draft entries are
never removed by the traversal (they are only seeded or overwritten), so
every draft key present before the request is still present after it. -/
theorem c3_amended (g : Gui) (fuel : Nat) (s : EdState) (t : Table) (s1 : EdState)
    (t1 : Table) (h : commitEditsToFlatbuffer g fuel s t = some (s1, t1)) :
    s1.editFieldsModified = false
    ∧ (∀ k, (efLookup s.editFields k).isSome = true →
        (efLookup s1.editFields k).isSome = true) := by
  have hp := commitEditsToFlatbuffer_pres g fuel s t (s1, t1) h
  exact ⟨hp.2, fun k hk => hp.1.1 k hk⟩

/-- C3 witness: the amended statement at the concrete scalar commit. -/
theorem c3_amended_witness :
    (commitEditsToFlatbuffer guiNone 2 c3State c1Buf).map
      (fun p => (p.1.editFieldsModified, (efLookup p.1.editFields "fb.count").isSome))
      = some (false, true) := by
  have hsome : (commitEditsToFlatbuffer guiNone 2 c3State c1Buf).isSome = true := by
    decide
  obtain ⟨p, hp⟩ := Option.isSome_iff_exists.mp hsome
  obtain ⟨s1, t1⟩ := p
  have h := c3_amended guiNone 2 c3State c1Buf s1 t1 hp
  rw [hp]
  have hh : (some (s1, t1)).map
      (fun p => (p.1.editFieldsModified, (efLookup p.1.editFields "fb.count").isSome))
      = some (s1.editFieldsModified, (efLookup s1.editFields "fb.count").isSome) := rfl
  rw [hh, h.1, h.2 "fb.count" (by decide)]

/-! ### C9 continued: what Update guarantees -/

/-- C9 (amended): after `Update` returns, any pending forced-commit or
revert-all request has been applied and cleared (`force_commit_field_` is
empty and `button_pressed_` is `kNone`), but the keyboard-in-use flag is
exactly as it was before the call — it is `Draw` that clears it, at the
start of the next rendering pass (shown here on the no-data path). -/
theorem c9_amended (g : Gui) (fuel : Nat) (s : EdState) (t : Table) (s1 : EdState)
    (t1 : Table) (h : update g fuel s t = some (s1, t1)) :
    s1.forceCommitField = "" ∧ s1.buttonPressed = .kNone
    ∧ s1.keyboardInUse = s.keyboardInUse
    ∧ (∀ (g2 : Gui) (s2 : EdState),
        draw g2 s2 none = ({s2 with keyboardInUse := false}, none)) := by
  unfold update at h
  split_ifs at h with h1 h2
  · cases hc : commitEditsToFlatbuffer g fuel s t with
    | none => rw [hc] at h; simp at h
    | some p =>
      rw [hc] at h
      have hpres := commitEditsToFlatbuffer_pres g fuel s t p hc
      have h3 : ({p.1 with buttonPressed := Button.kNone, forceCommitField := ""}, p.2)
          = ((s1, t1) : EdState × Table) := Option.some.inj h
      have h4 : s1 = {p.1 with buttonPressed := Button.kNone, forceCommitField := ""} :=
        (congrArg Prod.fst h3).symm
      rw [h4]
      exact ⟨rfl, rfl, (hpres.1.2.2.2 rfl).1, fun g2 s2 => rfl⟩
  · have h3 : ({clearEditFields s with buttonPressed := Button.kNone, forceCommitField := ""}, t) = ((s1, t1) : EdState × Table) := Option.some.inj h
    have h4 : s1 = {clearEditFields s with buttonPressed := Button.kNone, forceCommitField := ""} := (congrArg Prod.fst h3).symm
    rw [h4]
    exact ⟨rfl, rfl, rfl, fun g2 s2 => rfl⟩
  · have h3 : ({s with buttonPressed := Button.kNone, forceCommitField := ""}, t)
        = ((s1, t1) : EdState × Table) := Option.some.inj h
    have h4 : s1 = {s with buttonPressed := Button.kNone, forceCommitField := ""} :=
      (congrArg Prod.fst h3).symm
    rw [h4]
    exact ⟨rfl, rfl, rfl, fun g2 s2 => rfl⟩

/-- C9 witness: a pending forced commit over an empty table is applied and
cleared while the keyboard flag keeps its (true) value. -/
theorem c9_amended_witness :
    (update guiNone 1 c9WitState Table.nil).map
      (fun p => (p.1.forceCommitField, p.1.buttonPressed, p.1.keyboardInUse))
      = some ("", Button.kNone, true) := by
  have hsome : (update guiNone 1 c9WitState Table.nil).isSome = true := by decide
  obtain ⟨p, hp⟩ := Option.isSome_iff_exists.mp hsome
  obtain ⟨s1, t1⟩ := p
  have h := c9_amended guiNone 1 c9WitState Table.nil s1 t1 hp
  rw [hp]
  have hh : (some (s1, t1)).map
      (fun p => (p.1.forceCommitField, p.1.buttonPressed, p.1.keyboardInUse))
      = some (s1.forceCommitField, s1.buttonPressed, s1.keyboardInUse) := rfl
  rw [hh, h.1, h.2.1, h.2.2.1]
  rfl

/-! ### C1: the scalar commit pass -/

/-- C1 (counterexample): committing the non-numeric draft `"notanumber"` on
an int32 field storing 3 does not leave the field unchanged and does not
record an error: `SetAnyFieldS` parses the garbage as 0 and writes it, and
the error set stays empty.  (The claim says the stored value stays 3 and the
field's path id is recorded as errored.) -/
theorem c1_counterexample :
    (visitFlatbufferTable guiNone .kCommitEdits c1Buf "fb" c1State).2.2
      = Table.cons (.scalarE "count" i32 none (some 0)) Table.nil
    ∧ (visitFlatbufferTable guiNone .kCommitEdits c1Buf "fb" c1State).2.1.errorFields
      = [] := by decide

/-- `VisitFlatbufferScalar` under `kCommitEdits` when a draft exists: a
differing draft is parsed and written (truncated to the field width) and the
modified flag set when no force-commit is pending or this is the forced
field; otherwise the stored value is untouched. -/
theorem visitFlatbufferScalar_commit_draft (g : Gui) (name : String) (ty : ScalarTy)
    (en : Option EnumDef) (w : Int) (id : String) (s : EdState) (d : String)
    (hd : efLookup s.editFields id = some d) :
    visitFlatbufferScalar g .kCommitEdits name ty en w id s
      = if d ≠ numToString w ∧ (s.forceCommitField = "" ∨ s.forceCommitField = id) then
          ({s with editFieldsModified := true,
                   committedFields := setInsert s.committedFields id,
                   flatbufferModified := true},
           ty.wrap (stringToInt d.data))
        else if d ≠ numToString w then ({s with editFieldsModified := true}, w)
        else (s, w) := by
  have hg : efGet s.editFields id = d := by simp [efGet, hd]
  have hvf := visitField_commit_draft g name (numToString w)
      (getEnumTypeAndValue en d).2.1 (getEnumTypeAndValue en d).2.2 id s d hd
  simp only [visitFlatbufferScalar, hd, hg, Option.isSome_some, ne_eq,
    reduceCtorEq, not_false_eq_true, true_and, if_true]
  rw [hvf]
  by_cases hdv : d = numToString w
  · simp [hdv]
  · by_cases hforce : s.forceCommitField = "" ∨ s.forceCommitField = id
    · simp [hdv, hforce, hg, setScalarFromChars]
    · simp [hdv, hforce]

/-- C1 (amended): in a commit pass over a scalar field whose draft exists,
(i) the pass never resizes and never touches the error set; (ii) the stored
value becomes the C-parsed draft (unchanged only when the draft shows the
stored value's own text); and (iii) for any `v` in the field's declared range
(within int64, as `StringToInt` clamps there), drafting the text form of `v`
makes the field read back exactly `v`. -/
theorem c1_amended (g : Gui) (name : String) (ty : ScalarTy) (en : Option EnumDef)
    (w : Int) (s : EdState) (id d : String)
    (hforce : s.forceCommitField = "")
    (hd : efLookup s.editFields (id ++ "." ++ name) = some d) :
    (visitFlatbufferTable g .kCommitEdits
        (Table.cons (.scalarE name ty en (some w)) Table.nil) id s).1 = false
    ∧ (visitFlatbufferTable g .kCommitEdits
        (Table.cons (.scalarE name ty en (some w)) Table.nil) id s).2.1.errorFields
      = s.errorFields
    ∧ (visitFlatbufferTable g .kCommitEdits
        (Table.cons (.scalarE name ty en (some w)) Table.nil) id s).2.2
      = Table.cons (.scalarE name ty en
          (some (if d = numToString w then w else ty.wrap (stringToInt d.data))))
          Table.nil
    ∧ (∀ v : Int, 0 < ty.width → ty.minV ≤ v → v ≤ ty.maxV →
        -(2 ^ 63) ≤ v → v ≤ 2 ^ 63 - 1 → d = numToString v →
        (visitFlatbufferTable g .kCommitEdits
          (Table.cons (.scalarE name ty en (some w)) Table.nil) id s).2.2
        = Table.cons (.scalarE name ty en (some v)) Table.nil) := by
  have hsc := visitFlatbufferScalar_commit_draft g name ty en w (id ++ "." ++ name) s d hd
  have hmain : visitFlatbufferTable g .kCommitEdits
      (Table.cons (.scalarE name ty en (some w)) Table.nil) id s
      = (false,
         (visitFlatbufferScalar g .kCommitEdits name ty en w (id ++ "." ++ name) s).1,
         Table.cons (.scalarE name ty en
           (some (visitFlatbufferScalar g .kCommitEdits name ty en w
             (id ++ "." ++ name) s).2)) Table.nil) := by
    simp [visitFlatbufferTable, visitFlatbufferField]
  by_cases hdv : d = numToString w
  · have hval : (visitFlatbufferScalar g .kCommitEdits name ty en w
        (id ++ "." ++ name) s) = (s, w) := by
      rw [hsc]
      simp [hdv]
    refine ⟨by rw [hmain], by rw [hmain, hval], by rw [hmain, hval]; simp [hdv], ?_⟩
    intro v hw h1 h2 h3 h4 hdval
    have hvw : v = w := numToString_injective (hdval ▸ hdv)
    rw [hmain, hval, hvw]
  · have hval : (visitFlatbufferScalar g .kCommitEdits name ty en w
        (id ++ "." ++ name) s)
        = ({s with editFieldsModified := true,
                   committedFields := setInsert s.committedFields (id ++ "." ++ name),
                   flatbufferModified := true},
           ty.wrap (stringToInt d.data)) := by
      rw [hsc]
      simp [hdv, hforce]
    refine ⟨by rw [hmain], by rw [hmain, hval], by rw [hmain, hval]; simp [hdv], ?_⟩
    intro v hw h1 h2 h3 h4 hdval
    have hparse : stringToInt d.data = v := by
      rw [hdval]
      exact stringToInt_numToChars v h3 h4
    have hwrap : ty.wrap v = v := ScalarTy.wrap_eq_self ty v hw h1 h2
    rw [hmain, hval, hparse, hwrap]

/-- C1 witness: drafting `"7"` on an int32 field storing 3 and committing
reads back exactly 7, with the error set untouched. -/
theorem c1_amended_witness :
    (visitFlatbufferTable guiNone .kCommitEdits
        (Table.cons (.scalarE "count" i32 none (some 3)) Table.nil) "fb"
        c1WitState).2.2
      = Table.cons (.scalarE "count" i32 none (some 7)) Table.nil
    ∧ (visitFlatbufferTable guiNone .kCommitEdits
        (Table.cons (.scalarE "count" i32 none (some 3)) Table.nil) "fb"
        c1WitState).2.1.errorFields = [] := by
  have h := c1_amended guiNone "count" i32 none 3 c1WitState "fb" "7"
    (by decide) (by decide)
  exact ⟨h.2.2.2 7 (by decide) (by decide) (by decide) (by decide) (by decide)
    (by decide), by rw [h.2.1]; rfl⟩

/-! ### C2: malformed drafts in a commit pass -/

/-- `VisitFlatbufferStruct` under `kCommitEdits` when a draft exists: a
differing draft is validated first; only a valid draft is written (setting
the modified flag); an invalid one leaves the stored struct untouched — and
in no case is anything recorded in `error_fields_`. -/
theorem visitFlatbufferStruct_commit_draft (g : Gui) (name tyname : String)
    (ftys : STyList) (vals : SValList) (id : String) (s : EdState) (d : String)
    (hd : efLookup s.editFields id = some d) :
    visitFlatbufferStruct g .kCommitEdits name tyname ftys vals id s
      = if d ≠ String.mk (structToString vals)
           ∧ (s.forceCommitField = "" ∨ s.forceCommitField = id) then
          (if (parseStringIntoStruct d.data ftys vals).1 then
             ({s with editFieldsModified := true,
                      committedFields := setInsert s.committedFields id,
                      flatbufferModified := true},
              (parseStringIntoStruct d.data ftys vals).2)
           else
             ({s with editFieldsModified := true,
                      committedFields := setInsert s.committedFields id}, vals))
        else if d ≠ String.mk (structToString vals) then
          ({s with editFieldsModified := true}, vals)
        else (s, vals) := by
  have hg : efGet s.editFields id = d := by simp [efGet, hd]
  have hvf := visitField_commit_draft g name (String.mk (structToString vals))
      tyname "" id s d hd
  simp only [visitFlatbufferStruct]
  rw [hvf]
  by_cases hdv : d = String.mk (structToString vals)
  · simp [hdv]
  · by_cases hforce : s.forceCommitField = "" ∨ s.forceCommitField = id
    · simp only [ne_eq, hdv, not_false_eq_true, true_and, hforce, if_true]
      simp only [hg, efGet]
      by_cases hp : (parseStringIntoStruct d.data ftys vals).1
      · simp [hp, hd]
      · simp [hp, hd]
    · simp [hdv, hforce]

/-- C2 (counterexample): committing with the draft `"garbage"` pending on a
struct field leaves the error set empty — the path id is never recorded in
`error_fields_` (the source's only uses of that set are clearing it), even
though the draft is indeed never applied and the sibling scalar field still
commits. -/
theorem c2_counterexample :
    (visitFlatbufferTable guiNone .kCommitEdits c2Buf "fb" c2State).2.1.errorFields = []
    ∧ (visitFlatbufferTable guiNone .kCommitEdits c2Buf "fb" c2State).2.2
      = Table.cons (.structE "pos" "Vec2" vec2Tys (some vec2Vals))
          (Table.cons (.scalarE "count" i32 none (some 7)) Table.nil)
    ∧ (visitFlatbufferTable guiNone .kCommitEdits c2Buf "fb" c2State).1 = false := by
  decide

/-- C2 (amended): a struct draft that fails to parse is never applied and
never aborts the pass — the sibling scalar field after it still commits its
own draft — but it is not recorded anywhere: the error set is left exactly
as it was. -/
theorem c2_amended (g : Gui) (sname stname name2 : String) (ftys : STyList)
    (vals : SValList) (ty2 : ScalarTy) (w : Int) (s : EdState) (id d1 d2 : String)
    (hforce : s.forceCommitField = "")
    (h1 : efLookup s.editFields (id ++ "." ++ sname) = some d1)
    (h2 : efLookup s.editFields (id ++ "." ++ name2) = some d2)
    (hbad : (parseStringIntoStruct d1.data ftys vals).1 = false)
    (hne2 : d2 ≠ numToString w) :
    (visitFlatbufferTable g .kCommitEdits
        (Table.cons (.structE sname stname ftys (some vals))
          (Table.cons (.scalarE name2 ty2 none (some w)) Table.nil)) id s).1 = false
    ∧ (visitFlatbufferTable g .kCommitEdits
        (Table.cons (.structE sname stname ftys (some vals))
          (Table.cons (.scalarE name2 ty2 none (some w)) Table.nil)) id s).2.1.errorFields
      = s.errorFields
    ∧ (visitFlatbufferTable g .kCommitEdits
        (Table.cons (.structE sname stname ftys (some vals))
          (Table.cons (.scalarE name2 ty2 none (some w)) Table.nil)) id s).2.2
      = Table.cons (.structE sname stname ftys (some vals))
          (Table.cons (.scalarE name2 ty2 none
            (some (ty2.wrap (stringToInt d2.data)))) Table.nil) := by
  have hsst := visitFlatbufferStruct_commit_draft g sname stname ftys vals
    (id ++ "." ++ sname) s d1 h1
  by_cases hd1v : d1 = String.mk (structToString vals)
  · have hv1 : visitFlatbufferStruct g .kCommitEdits sname stname ftys vals
        (id ++ "." ++ sname) s = (s, vals) := by
      rw [hsst]
      simp [hd1v]
    have hsc := visitFlatbufferScalar_commit_draft g name2 ty2 none w
      (id ++ "." ++ name2) s d2 h2
    have hv2 : visitFlatbufferScalar g .kCommitEdits name2 ty2 none w
        (id ++ "." ++ name2) s
        = ({s with editFieldsModified := true,
                   committedFields := setInsert s.committedFields (id ++ "." ++ name2),
                   flatbufferModified := true},
           ty2.wrap (stringToInt d2.data)) := by
      rw [hsc]
      simp [hne2, hforce]
    refine ⟨?_, ?_, ?_⟩ <;>
      simp [visitFlatbufferTable, visitFlatbufferField, hv1, hv2]
  · have hv1 : visitFlatbufferStruct g .kCommitEdits sname stname ftys vals
        (id ++ "." ++ sname) s
        = ({s with editFieldsModified := true,
                   committedFields := setInsert s.committedFields (id ++ "." ++ sname)},
           vals) := by
      rw [hsst]
      simp [hd1v, hforce, hbad]
    have hsc := visitFlatbufferScalar_commit_draft g name2 ty2 none w
      (id ++ "." ++ name2)
      {s with editFieldsModified := true,
              committedFields := setInsert s.committedFields (id ++ "." ++ sname)}
      d2 h2
    have hv2 : visitFlatbufferScalar g .kCommitEdits name2 ty2 none w
        (id ++ "." ++ name2)
        {s with editFieldsModified := true,
                committedFields := setInsert s.committedFields (id ++ "." ++ sname)}
        = ({s with editFieldsModified := true,
                   committedFields := setInsert
                     (setInsert s.committedFields (id ++ "." ++ sname))
                     (id ++ "." ++ name2),
                   flatbufferModified := true},
           ty2.wrap (stringToInt d2.data)) := by
      rw [hsc]
      simp [hne2, hforce]
    refine ⟨?_, ?_, ?_⟩ <;>
      simp [visitFlatbufferTable, visitFlatbufferField, hv1, hv2]

/-- C2 witness: the amended statement evaluated at the concrete buffer
`{pos : Vec2 = (1,2), count : int32 = 3}` with drafts
`pos ↦ "garbage"`, `count ↦ "7"`. -/
theorem c2_amended_witness :
    (visitFlatbufferTable guiNone .kCommitEdits c2Buf "fb" c2State).2.2
      = Table.cons (.structE "pos" "Vec2" vec2Tys (some vec2Vals))
          (Table.cons (.scalarE "count" i32 none
            (some (i32.wrap (stringToInt "7".data)))) Table.nil) := by
  have h := c2_amended guiNone "pos" "Vec2" "count" vec2Tys vec2Vals i32 3 c2State
    "fb" "garbage" "7" (by decide) (by decide) (by decide) (by decide) (by decide)
  exact h.2.2

/-! ### C4: the struct text codec round trip -/

/-- C4: `Decode(Encode(v))` fails for every struct with a reachable nested
sub-struct: the sub-struct branch extracts the text between the sub-struct's
brackets and recursively calls `ParseStringIntoStruct` on it, whose own
first step tries to extract an inline `< ... >` def from that bracket-less
text and gets the empty string, so the recursion reports failure (and the
editor therefore never applies such a draft).  This holds both when the
sub-struct is followed by another field, `(1, 2, (3, 4), 5)`, and when it is
the final field, `(1, (2, 3))`.  A flat struct, by contrast, does
round-trip.  Encoding yields exactly the documented format, and decoding
that very text fails. -/
theorem c4_nested_roundtrip_fails :
    String.mk (structToString c4Vals) = "< 1, 2, < 3, 4 >, 5 >"
    ∧ (parseStringIntoStruct (structToString c4Vals) c4Tys c4Vals).1 = false
    ∧ String.mk (structToString c4TrailVals) = "< 1, < 2, 3 > >"
    ∧ (parseStringIntoStruct (structToString c4TrailVals) c4TrailTys c4TrailVals).1
      = false
    ∧ parseStringIntoStruct (structToString c4FlatVals) vec2Tys c4FlatZero
      = (true, c4FlatVals) := by decide

/-! ### C5: the modified flag and vector resizes -/

/-- C5: force-committing a pending vector-size draft (`[1,2]` grown to 3)
resizes the vector (zero-filling the new slot) and records the size field as
committed, yet leaves `flatbuffer_modified_` `false` — the resize branch of
`VisitFlatbufferVector` returns without setting the flag, contradicting the
claimed lifecycle (and the flag's own documentation). -/
theorem c5_resize_leaves_flag_false :
    (commitEditsToFlatbuffer guiNone 3 c5State c5Buf).map
      (fun p => (p.1.flatbufferModified, p.1.committedFields, p.2))
    = some (false, ["fb.tags.size"],
        Table.cons (.vectorScalars "tags" i32 none [1, 2, 0]) Table.nil) := by decide

/-! ### C6: bitflag resolution -/

/-- C6: with declared values 1,2,4,8 (`FlagA`..`FlagD`), resolving 5 joins
the names for 1 and 4 in declaration order; resolving 0 yields the blank
sentinel; resolving 3 against an enum declaring only 1 and 2 joins both
names rather than missing; and a non-matching value of a non-bitflag enum
(values 1 and 3) resolves to `???`. -/
theorem c6_bitflag_resolution :
    (getEnumTypeAndValue (some flagsEnum1248) "5").2.2 = "(FlagA | FlagC)"
    ∧ (getEnumTypeAndValue (some flagsEnum1248) "0").2.2 = "(-blank-)"
    ∧ (getEnumTypeAndValue (some flagsEnum12) "3").2.2 = "(FlagA | FlagB)"
    ∧ (getEnumTypeAndValue (some simpleEnum) "5").2.2 = "(???)" := by decide

/-! ### C9: Update and the keyboard flag -/

/-- C9 (counterexample): `Update` with no pending request leaves the
keyboard-in-use flag exactly as it was (here `true`); it is `Draw`, not
`Update`, that clears it. -/
theorem c9_counterexample :
    (update guiNone 1 c9State Table.nil).map (fun p => p.1.keyboardInUse)
      = some true := by decide

/-! ### C10: the null-config constructor -/

/-- C10: the constructor dereferences `config` (for `read_only()` and
`auto_commit_edits()`) before its `config == nullptr` defaulting branch, so
constructing with a null config faults and the defaults are unreachable,
while any non-null config constructs successfully. -/
theorem c10_null_config_faults :
    (∀ d : Option (List Nat), flatbufferEditorCtor none d = none)
    ∧ (∀ (c : FlatbufferEditorConfig) (d : Option (List Nat)),
        (flatbufferEditorCtor (some c) d).isSome = true) := by
  constructor
  · intro d; rfl
  · intro c d; rfl


/-! ### C8: read-only passes never mutate -/

/-- The state components a read-only pass leaves untouched (everything except
the expansion set, which user clicks may still toggle). -/
def roInv (s s1 : EdState) : Prop :=
  s1.editFields = s.editFields ∧ s1.committedFields = s.committedFields
  ∧ s1.errorFields = s.errorFields ∧ s1.rootId = s.rootId
  ∧ s1.currentlyEditingField = s.currentlyEditingField
  ∧ s1.forceCommitField = s.forceCommitField
  ∧ s1.buttonPressed = s.buttonPressed
  ∧ s1.keyboardInUse = s.keyboardInUse
  ∧ s1.editFieldsModified = s.editFieldsModified
  ∧ s1.flatbufferModified = s.flatbufferModified

theorem roInv_refl (s : EdState) : roInv s s :=
  ⟨rfl, rfl, rfl, rfl, rfl, rfl, rfl, rfl, rfl, rfl⟩

theorem roInv_trans {a b c : EdState} (h1 : roInv a b) (h2 : roInv b c) : roInv a c := by
  obtain ⟨x1, x2, x3, x4, x5, x6, x7, x8, x9, x10⟩ := h1
  obtain ⟨y1, y2, y3, y4, y5, y6, y7, y8, y9, y10⟩ := h2
  exact ⟨y1.trans x1, y2.trans x2, y3.trans x3, y4.trans x4, y5.trans x5,
    y6.trans x6, y7.trans x7, y8.trans x8, y9.trans x9, y10.trans x10⟩

theorem visitField_ro (g : Gui) (name value etype comment id : String) (s : EdState) :
    visitField g .kDrawReadOnly name value etype comment id s = (false, s) := by
  simp [visitField, visitFieldSeed]

theorem addFieldButton_ro (g : Gui) (name typestr id : String) (s : EdState) :
    addFieldButton g .kDrawReadOnly name typestr id s = (false, s) := by
  simp [addFieldButton, IsDraw, IsDrawEdit]

theorem visitFlatbufferScalar_ro (g : Gui) (name : String) (ty : ScalarTy)
    (en : Option EnumDef) (stored : Int) (id : String) (s : EdState) :
    visitFlatbufferScalar g .kDrawReadOnly name ty en stored id s = (s, stored) := by
  simp [visitFlatbufferScalar, visitField_ro]

theorem visitFlatbufferString_ro (g : Gui) (name stored id : String) (s : EdState) :
    visitFlatbufferString g .kDrawReadOnly name stored id s = (false, s, stored) := by
  simp [visitFlatbufferString, visitField_ro]

theorem visitFlatbufferStruct_ro (g : Gui) (name tyname : String) (ftys : STyList)
    (vals : SValList) (id : String) (s : EdState) :
    visitFlatbufferStruct g .kDrawReadOnly name tyname ftys vals id s = (s, vals) := by
  simp [visitFlatbufferStruct, visitField_ro]

theorem visitVectorSize_ro (g : Gui) (name : String) (len : Nat) (id : String)
    (s : EdState) : visitVectorSize g .kDrawReadOnly name len id s = (false, s) := by
  simp [visitVectorSize, visitField_ro]

theorem visitVecScalars_ro (g : Gui) (name : String) (ty : ScalarTy)
    (en : Option EnumDef) (vals : List Int) :
    ∀ (id : String) (i : Nat) (s : EdState),
      visitVecScalars g .kDrawReadOnly name ty en vals id i s = (s, vals) := by
  induction vals with
  | nil => intro id i s; rfl
  | cons v rest ih =>
    intro id i s
    simp [visitVecScalars, visitField_ro, ih]

theorem visitVecStrings_ro (g : Gui) (name : String) (vals : List String) :
    ∀ (id : String) (i : Nat) (s : EdState),
      visitVecStrings g .kDrawReadOnly name vals id i s = (false, s, vals) := by
  induction vals with
  | nil => intro id i s; rfl
  | cons v rest ih =>
    intro id i s
    simp [visitVecStrings, visitField_ro, ih]

theorem visitVecStructs_ro (g : Gui) (name tyname : String) (ftys : STyList)
    (vals : List SValList) :
    ∀ (id : String) (i : Nat) (s : EdState),
      visitVecStructs g .kDrawReadOnly name tyname ftys vals id i s = (s, vals) := by
  induction vals with
  | nil => intro id i s; rfl
  | cons v rest ih =>
    intro id i s
    simp [visitVecStructs, visitFlatbufferStruct_ro, ih]

theorem subtableCollapseClick_roInv (g : Gui) (mode : VisitMode) (id : String)
    (s : EdState) : roInv s (subtableCollapseClick g mode id s) := by
  unfold subtableCollapseClick
  split_ifs <;>
    exact ⟨rfl, rfl, rfl, rfl, rfl, rfl, rfl, rfl, rfl, rfl⟩

theorem subtableExpandClick_roInv (g : Gui) (mode : VisitMode) (id : String)
    (s : EdState) : roInv s (subtableExpandClick g mode id s) := by
  unfold subtableExpandClick
  split_ifs <;>
    exact ⟨rfl, rfl, rfl, rfl, rfl, rfl, rfl, rfl, rfl, rfl⟩

mutual
theorem visitFlatbufferField_ro (g : Gui) (e : Entry) (id : String) (s : EdState) :
    (visitFlatbufferField g .kDrawReadOnly e id s).1 = false
    ∧ roInv s (visitFlatbufferField g .kDrawReadOnly e id s).2.1
    ∧ (visitFlatbufferField g .kDrawReadOnly e id s).2.2 = e := by
  cases e with
  | scalarE name ty en stored =>
    cases stored with
    | none => simp [visitFlatbufferField, addFieldButton_ro, roInv_refl]
    | some v => simp [visitFlatbufferField, visitFlatbufferScalar_ro, roInv_refl]
  | stringE name stored =>
    cases stored with
    | none => simp [visitFlatbufferField, addFieldButton_ro, roInv_refl]
    | some str0 => simp [visitFlatbufferField, visitFlatbufferString_ro, roInv_refl]
  | structE name tyname ftys stored =>
    cases stored with
    | none => simp [visitFlatbufferField, addFieldButton_ro, roInv_refl]
    | some vals => simp [visitFlatbufferField, visitFlatbufferStruct_ro, roInv_refl]
  | tableAbsent name =>
    simp [visitFlatbufferField, addFieldButton_ro, roInv_refl]
  | tableE name tyname sub =>
    simp only [visitFlatbufferField]
    by_cases hexp : subtableExpanded .kDrawReadOnly (id ++ "." ++ name) s = true
    · rw [if_pos hexp]
      have hclick := subtableCollapseClick_roInv g .kDrawReadOnly (id ++ "." ++ name) s
      have hrec := visitFlatbufferTable_ro g sub (id ++ "." ++ name)
        (subtableCollapseClick g .kDrawReadOnly (id ++ "." ++ name) s)
      refine ⟨hrec.1, roInv_trans hclick hrec.2.1, ?_⟩
      rw [hrec.2.2]
    · rw [if_neg hexp]
      exact ⟨rfl, subtableExpandClick_roInv g .kDrawReadOnly (id ++ "." ++ name) s, rfl⟩
  | vectorAbsent name =>
    simp [visitFlatbufferField, addFieldButton_ro, roInv_refl]
  | vectorScalars name ty en vals =>
    simp [visitFlatbufferField, visitVectorSize_ro, visitVecScalars_ro, roInv_refl]
  | vectorStrings name vals =>
    simp [visitFlatbufferField, visitVectorSize_ro, visitVecStrings_ro, roInv_refl]
  | vectorStructs name tyname ftys vals =>
    simp [visitFlatbufferField, visitVectorSize_ro, visitVecStructs_ro, roInv_refl]
  | vectorTables name tyname subs =>
    simp only [visitFlatbufferField, visitVectorSize_ro]
    have hrec := visitVecTables_ro g subs (id ++ "." ++ name) 0 s
    refine ⟨?_, ?_, ?_⟩ <;> simp [hrec.1, hrec.2.1, hrec.2.2]
theorem visitFlatbufferTable_ro (g : Gui) (t : Table) (id : String) (s : EdState) :
    (visitFlatbufferTable g .kDrawReadOnly t id s).1 = false
    ∧ roInv s (visitFlatbufferTable g .kDrawReadOnly t id s).2.1
    ∧ (visitFlatbufferTable g .kDrawReadOnly t id s).2.2 = t := by
  cases t with
  | nil => exact ⟨rfl, roInv_refl s, rfl⟩
  | cons e rest =>
    simp only [visitFlatbufferTable]
    have he := visitFlatbufferField_ro g e id s
    have hrest := visitFlatbufferTable_ro g rest id
      (visitFlatbufferField g .kDrawReadOnly e id s).2.1
    rw [he.1]
    simp only [Bool.false_eq_true, if_false]
    exact ⟨hrest.1, roInv_trans he.2.1 hrest.2.1, by rw [he.2.2, hrest.2.2]⟩
theorem visitVecTables_ro (g : Gui) (subs : TableList) (id : String) (i : Nat)
    (s : EdState) :
    (visitVecTables g .kDrawReadOnly subs id i s).1 = false
    ∧ roInv s (visitVecTables g .kDrawReadOnly subs id i s).2.1
    ∧ (visitVecTables g .kDrawReadOnly subs id i s).2.2 = subs := by
  cases subs with
  | nil => exact ⟨rfl, roInv_refl s, rfl⟩
  | cons t rest =>
    simp only [visitVecTables]
    by_cases hexp : subtableExpanded .kDrawReadOnly
        (id ++ ("[" ++ numToString (i : Int) ++ "]")) s = true
    · rw [if_pos hexp]
      have hclick := subtableCollapseClick_roInv g .kDrawReadOnly
        (id ++ ("[" ++ numToString (i : Int) ++ "]")) s
      have ht := visitFlatbufferTable_ro g t (id ++ ("[" ++ numToString (i : Int) ++ "]"))
        (subtableCollapseClick g .kDrawReadOnly
          (id ++ ("[" ++ numToString (i : Int) ++ "]")) s)
      rw [ht.1]
      simp only [Bool.false_eq_true, if_false]
      have hrest := visitVecTables_ro g rest id (i + 1)
        (visitFlatbufferTable g .kDrawReadOnly t
          (id ++ ("[" ++ numToString (i : Int) ++ "]"))
          (subtableCollapseClick g .kDrawReadOnly
            (id ++ ("[" ++ numToString (i : Int) ++ "]")) s)).2.1
      exact ⟨hrest.1, roInv_trans (roInv_trans hclick ht.2.1) hrest.2.1,
        by rw [ht.2.2, hrest.2.2]⟩
    · rw [if_neg hexp]
      have hrest := visitVecTables_ro g rest id (i + 1)
        (subtableExpandClick g .kDrawReadOnly
          (id ++ ("[" ++ numToString (i : Int) ++ "]")) s)
      exact ⟨hrest.1,
        roInv_trans (subtableExpandClick_roInv g .kDrawReadOnly
          (id ++ ("[" ++ numToString (i : Int) ++ "]")) s) hrest.2.1,
        by rw [hrest.2.2]⟩
end

/-- C8: a `kDrawReadOnly` traversal pass never resizes, returns the buffer
unchanged, and leaves the edit-field map, the error set and the modified
flag exactly as they were — for every buffer, state and GUI oracle. -/
theorem c8_readonly_no_mutation (g : Gui) (t : Table) (id : String) (s : EdState) :
    (visitFlatbufferTable g .kDrawReadOnly t id s).1 = false
    ∧ (visitFlatbufferTable g .kDrawReadOnly t id s).2.2 = t
    ∧ (visitFlatbufferTable g .kDrawReadOnly t id s).2.1.editFields = s.editFields
    ∧ (visitFlatbufferTable g .kDrawReadOnly t id s).2.1.errorFields = s.errorFields
    ∧ (visitFlatbufferTable g .kDrawReadOnly t id s).2.1.flatbufferModified
      = s.flatbufferModified := by
  have h := visitFlatbufferTable_ro g t id s
  exact ⟨h.1, h.2.2, h.2.1.1, h.2.1.2.2.1, h.2.1.2.2.2.2.2.2.2.2.2⟩


/-! ### C7: the vector-size field never auto-commits -/

theorem visitFieldSeed_currently (mode : VisitMode) (value id : String) (s : EdState) :
    (visitFieldSeed mode value id s).currentlyEditingField = s.currentlyEditingField := by
  unfold visitFieldSeed
  split_ifs <;> rfl

theorem visitFieldEditControl_editFields (g : Gui) (mode : VisitMode) (id : String)
    (s : EdState) : (visitFieldEditControl g mode id s).editFields = s.editFields := by
  unfold visitFieldEditControl
  split_ifs <;> rfl

theorem visitFieldManualButtons_currently (g : Gui) (mode : VisitMode) (value id : String)
    (s : EdState) :
    (visitFieldManualButtons g mode value id s).currentlyEditingField
      = s.currentlyEditingField := by
  unfold visitFieldManualButtons
  split_ifs <;> rfl

theorem visitFieldEditControl_currently_manual (g : Gui) (id : String) (s : EdState) :
    (visitFieldEditControl g .kDrawEditManual id s).currentlyEditingField
      = s.currentlyEditingField := by
  unfold visitFieldEditControl
  split_ifs with h1 h2
  · exact absurd h2 (by decide)
  · rfl
  · rfl

theorem visitFieldEditControl_auto_editing (g : Gui) (id : String) (s : EdState)
    (h : g.editing (id ++ "-edit") = true) :
    (visitFieldEditControl g .kDrawEditAuto id s).currentlyEditingField = id := by
  simp [visitFieldEditControl, IsDrawEdit, h]

/-- `VisitField` returns `true` (a committed edit) only in `kCommitEdits`. -/
theorem visitField_nonCommit_false (g : Gui) (mode : VisitMode)
    (name value etype comment id : String) (s : EdState) (h : mode ≠ .kCommitEdits) :
    (visitField g mode name value etype comment id s).1 = false := by
  simp only [visitField]
  by_cases h1 : mode = .kDrawReadOnly
  · rw [if_pos h1]
  · rw [if_neg h1]
    by_cases h2 : efGet (visitFieldSeed mode value id s).editFields id ≠ value
        ∧ mode = .kCommitEdits
        ∧ ((visitFieldSeed mode value id s).forceCommitField = ""
           ∨ (visitFieldSeed mode value id s).forceCommitField = id)
    · exact absurd h2.2.1 h
    · rw [if_neg h2]

/-- In manual mode `VisitField` never records a currently-edited field. -/
theorem visitField_manual_currently (g : Gui) (name value etype comment id : String)
    (s : EdState) :
    (visitField g .kDrawEditManual name value etype comment id s).2.currentlyEditingField
      = s.currentlyEditingField := by
  simp only [visitField]
  rw [if_neg (by decide : ¬(VisitMode.kDrawEditManual = VisitMode.kDrawReadOnly))]
  by_cases h2 : efGet (visitFieldSeed .kDrawEditManual value id s).editFields id ≠ value
      ∧ VisitMode.kDrawEditManual = .kCommitEdits
      ∧ ((visitFieldSeed .kDrawEditManual value id s).forceCommitField = ""
         ∨ (visitFieldSeed .kDrawEditManual value id s).forceCommitField = id)
  · exact absurd h2.2.1 (by decide)
  · rw [if_neg h2]
    dsimp only
    rw [visitFieldManualButtons_currently, visitFieldEditControl_currently_manual]
    split_ifs <;> rw [visitFieldSeed_currently]

/-- In auto mode `VisitField` records the field being edited as the
currently-edited field (the hook for commit-on-blur). -/
theorem visitField_auto_editing_currently (g : Gui) (name value etype comment id : String)
    (s : EdState) (h : g.editing (id ++ "-edit") = true) :
    (visitField g .kDrawEditAuto name value etype comment id s).2.currentlyEditingField
      = id := by
  simp only [visitField]
  rw [if_neg (by decide : ¬(VisitMode.kDrawEditAuto = VisitMode.kDrawReadOnly))]
  by_cases h2 : efGet (visitFieldSeed .kDrawEditAuto value id s).editFields id ≠ value
      ∧ VisitMode.kDrawEditAuto = .kCommitEdits
      ∧ ((visitFieldSeed .kDrawEditAuto value id s).forceCommitField = ""
         ∨ (visitFieldSeed .kDrawEditAuto value id s).forceCommitField = id)
  · exact absurd h2.2.1 (by decide)
  · rw [if_neg h2]
    dsimp only
    rw [visitFieldManualButtons_currently, visitFieldEditControl_auto_editing g id _ h]

theorem visitFieldManualButtons_apply (g : Gui) (value id : String) (s : EdState)
    (d : String) (hd : efGet s.editFields id = d) (hdv : d ≠ value)
    (happly : g.pressed (id ++ "-apply") = true) :
    (visitFieldManualButtons g .kDrawEditManual value id s).forceCommitField = id := by
  unfold visitFieldManualButtons
  rw [if_pos ⟨rfl, by rw [hd]; exact hdv⟩, if_pos happly]
  split_ifs <;> rfl

/-- In manual mode, pressing the apply button of a field with a differing
draft queues that field for force-commit. -/
theorem visitField_manual_force_apply (g : Gui) (name value etype comment id : String)
    (s : EdState) (d : String) (hd : efLookup s.editFields id = some d) (hdv : d ≠ value)
    (happly : g.pressed (id ++ "-apply") = true) :
    (visitField g .kDrawEditManual name value etype comment id s).2.forceCommitField
      = id := by
  have hseed : visitFieldSeed .kDrawEditManual value id s = s := by
    unfold visitFieldSeed
    rw [if_neg]
    intro hcon
    rw [hd] at hcon
    simp at hcon
  simp only [visitField, hseed]
  rw [if_neg (by decide : ¬(VisitMode.kDrawEditManual = VisitMode.kDrawReadOnly))]
  by_cases h2 : efGet s.editFields id ≠ value
      ∧ VisitMode.kDrawEditManual = .kCommitEdits
      ∧ (s.forceCommitField = "" ∨ s.forceCommitField = id)
  · exact absurd h2.2.1 (by decide)
  · rw [if_neg h2]
    dsimp only
    apply visitFieldManualButtons_apply g value id _ d ?_ hdv happly
    rw [visitFieldEditControl_editFields]
    split_ifs <;> simp [efGet, hd]

theorem visitVectorSize_nonCommit_false (g : Gui) (mode : VisitMode) (name : String)
    (len : Nat) (id : String) (s : EdState) (h : mode ≠ .kCommitEdits) :
    (visitVectorSize g mode name len id s).1 = false := by
  unfold visitVectorSize
  split_ifs with hm
  · exact visitField_nonCommit_false g .kDrawEditManual _ _ _ _ _ s (by decide)
  · exact visitField_nonCommit_false g mode _ _ _ _ _ s h

theorem visitVectorSize_auto_currently (g : Gui) (name : String) (len : Nat)
    (id : String) (s : EdState) :
    (visitVectorSize g .kDrawEditAuto name len id s).2.currentlyEditingField
      = s.currentlyEditingField := by
  unfold visitVectorSize
  rw [if_pos rfl]
  exact visitField_manual_currently g _ _ _ _ _ s

theorem visitVectorSize_auto_apply (g : Gui) (name : String) (len : Nat) (id : String)
    (s : EdState) (d : String) (hd : efLookup s.editFields (id ++ ".size") = some d)
    (hdv : d ≠ numToString (len : Int))
    (happly : g.pressed ((id ++ ".size") ++ "-apply") = true) :
    (visitVectorSize g .kDrawEditAuto name len id s).2.forceCommitField
      = id ++ ".size" := by
  unfold visitVectorSize
  rw [if_pos rfl]
  exact visitField_manual_force_apply g _ _ _ _ _ s d hd hdv happly

/-- C7: the vector-size field is exempted from auto-commit.  (a) In a
`kDrawEditAuto` pass over a vector field, the size sub-field never becomes
the currently-edited field (so `Draw`'s commit-on-blur logic can never
force-commit it), no matter what the user is editing; (b) by contrast a
scalar field being edited in the same mode does become the currently-edited
field; (c) the size field instead carries the manual apply button even in
auto mode — pressing it queues the size field for force-commit; and (d) a
commit pass whose force-commit target is some other field does not resize
the vector even with a differing size draft pending. -/
theorem c7_vector_size_policy (g : Gui) (s : EdState) (name id : String) (ty : ScalarTy) :
    ((visitFlatbufferTable g .kDrawEditAuto
        (Table.cons (.vectorScalars name ty none []) Table.nil) id s).2.1.currentlyEditingField
      = s.currentlyEditingField)
    ∧ (∀ v : Int, g.editing (id ++ "." ++ name ++ "-edit") = true →
        (visitFlatbufferTable g .kDrawEditAuto
          (Table.cons (.scalarE name ty none (some v)) Table.nil) id s).2.1.currentlyEditingField
        = id ++ "." ++ name)
    ∧ (∀ d : String,
        efLookup s.editFields (id ++ "." ++ name ++ ".size") = some d →
        d ≠ "0" →
        g.pressed (id ++ "." ++ name ++ ".size" ++ "-apply") = true →
        (visitFlatbufferTable g .kDrawEditAuto
          (Table.cons (.vectorScalars name ty none []) Table.nil) id s).2.1.forceCommitField
        = id ++ "." ++ name ++ ".size")
    ∧ (∀ d : String,
        efLookup s.editFields (id ++ "." ++ name ++ ".size") = some d →
        s.forceCommitField ≠ "" →
        s.forceCommitField ≠ id ++ "." ++ name ++ ".size" →
        (visitFlatbufferTable g .kCommitEdits
          (Table.cons (.vectorScalars name ty none []) Table.nil) id s).1 = false
        ∧ (visitFlatbufferTable g .kCommitEdits
            (Table.cons (.vectorScalars name ty none []) Table.nil) id s).2.2
          = Table.cons (.vectorScalars name ty none []) Table.nil) := by
  refine ⟨?_, ?_, ?_, ?_⟩
  · have hsz := visitVectorSize_nonCommit_false g .kDrawEditAuto name
      (List.length ([] : List Int)) (id ++ "." ++ name) s (by decide)
    simp only [visitFlatbufferTable, visitFlatbufferField, hsz, Bool.false_eq_true,
      if_false, visitVecScalars]
    exact visitVectorSize_auto_currently g name 0 (id ++ "." ++ name) s
  · intro v hedit
    have hf := visitField_nonCommit_false g .kDrawEditAuto name (numToString v)
      (getEnumTypeAndValue none (if VisitMode.kDrawEditAuto ≠ .kDrawReadOnly ∧
        (efLookup s.editFields (id ++ "." ++ name)).isSome then
          efGet s.editFields (id ++ "." ++ name) else numToString v)).2.1
      (getEnumTypeAndValue none (if VisitMode.kDrawEditAuto ≠ .kDrawReadOnly ∧
        (efLookup s.editFields (id ++ "." ++ name)).isSome then
          efGet s.editFields (id ++ "." ++ name) else numToString v)).2.2
      (id ++ "." ++ name) s (by decide)
    have hc := visitField_auto_editing_currently g name (numToString v)
      (getEnumTypeAndValue none (if VisitMode.kDrawEditAuto ≠ .kDrawReadOnly ∧
        (efLookup s.editFields (id ++ "." ++ name)).isSome then
          efGet s.editFields (id ++ "." ++ name) else numToString v)).2.1
      (getEnumTypeAndValue none (if VisitMode.kDrawEditAuto ≠ .kDrawReadOnly ∧
        (efLookup s.editFields (id ++ "." ++ name)).isSome then
          efGet s.editFields (id ++ "." ++ name) else numToString v)).2.2
      (id ++ "." ++ name) s hedit
    simp only [visitFlatbufferTable, visitFlatbufferField, visitFlatbufferScalar, hf,
      Bool.false_eq_true, if_false]
    exact hc
  · intro d hd hdv happly
    have hsz := visitVectorSize_nonCommit_false g .kDrawEditAuto name
      (List.length ([] : List Int)) (id ++ "." ++ name) s (by decide)
    simp only [visitFlatbufferTable, visitFlatbufferField, hsz, Bool.false_eq_true,
      if_false, visitVecScalars]
    exact visitVectorSize_auto_apply g name 0 (id ++ "." ++ name) s d hd
      (by intro hcon; exact hdv (by rw [hcon]; rfl)) happly
  · intro d hd hforce1 hforce2
    have hvf := visitField_commit_draft g (name ++ ".size")
      (numToString ((List.length ([] : List Int) : Int))) "size_t" ""
      (id ++ "." ++ name ++ ".size") s d hd
    have hcond : ¬(d ≠ numToString ((List.length ([] : List Int) : Int))
        ∧ (s.forceCommitField = ""
           ∨ s.forceCommitField = id ++ "." ++ name ++ ".size")) := by
      rintro ⟨-, h | h⟩
      · exact hforce1 h
      · exact hforce2 h
    rw [if_neg hcond] at hvf
    simp only [visitFlatbufferTable, visitFlatbufferField, visitVectorSize,
      if_neg (by decide : ¬(VisitMode.kCommitEdits = VisitMode.kDrawEditAuto)), hvf]
    by_cases hdv : d = numToString ((List.length ([] : List Int) : Int))
    · rw [hdv, if_neg (by simp : ¬(numToString ((List.length ([] : List Int) : Int))
        ≠ numToString ((List.length ([] : List Int) : Int))))]
      exact ⟨rfl, rfl⟩
    · rw [if_pos hdv]
      exact ⟨rfl, rfl⟩

theorem c7_witness :
    ((visitFlatbufferTable gEditAll .kDrawEditAuto
        (Table.cons (.vectorScalars "tags" i32 none []) Table.nil)
        "fb" c7State).2.1.currentlyEditingField = c7State.currentlyEditingField)
    ∧ ((visitFlatbufferTable gEditAll .kDrawEditAuto
        (Table.cons (.scalarE "tags" i32 none (some 5)) Table.nil)
        "fb" c7State).2.1.currentlyEditingField = "fb" ++ "." ++ "tags")
    ∧ ((visitFlatbufferTable gApplySize .kDrawEditAuto
        (Table.cons (.vectorScalars "tags" i32 none []) Table.nil)
        "fb" c7State).2.1.forceCommitField = "fb" ++ "." ++ "tags" ++ ".size")
    ∧ ((visitFlatbufferTable gApplySize .kCommitEdits
        (Table.cons (.vectorScalars "tags" i32 none []) Table.nil)
        "fb" c7ForceState).1 = false
      ∧ (visitFlatbufferTable gApplySize .kCommitEdits
          (Table.cons (.vectorScalars "tags" i32 none []) Table.nil)
          "fb" c7ForceState).2.2
        = Table.cons (.vectorScalars "tags" i32 none []) Table.nil) :=
  ⟨(c7_vector_size_policy gEditAll c7State "tags" "fb" i32).1,
   (c7_vector_size_policy gEditAll c7State "tags" "fb" i32).2.1 5 (by decide),
   (c7_vector_size_policy gApplySize c7State "tags" "fb" i32).2.2.1 "9"
     (by decide) (by decide) (by decide),
   (c7_vector_size_policy gApplySize c7ForceState "tags" "fb" i32).2.2.2 "9"
     (by decide) (by decide) (by decide)⟩

end SceneLab
